import Mathlib

/-!
# A verification model of the fx-simulator trading engine

This file gives a shallow embedding of the core of the repository's backend:

* `MarketDataService` (src/backend/src/services/market_data_service.py):
  candle queries, market-hours filtering, candle-start computation,
  partial-candle synthesis and the series query with gap-filling;
* `TradingService` (src/backend/src/services/trading_service.py):
  order creation with margin check, position closing with P&L and the
  consecutive-loss streak, pending-order execution and SL/TP triggers;
* `SimulationService.advance_time` (src/backend/src/services/simulation_service.py).

Modelling conventions:

* Timestamps are natural numbers counting minutes since an epoch that falls on
  a Monday 00:00, mirroring Python `datetime` at minute granularity (all of the
  engine's candles and clock values are minute-aligned).
* Prices and monetary amounts are exact rationals.  The source does its
  arithmetic in binary floats / `Decimal`; the claims under study are about
  exact decimal values, which ℚ represents faithfully.  Python's `round(x, n)`
  (banker's rounding) is modelled exactly on ℚ.
* The SQL candle table is a list of rows; `ORDER BY timestamp` is modelled by
  insertion sort on the timestamp.  The table's unique index on
  `(timeframe, timestamp)` is taken as an explicit hypothesis (`StoreOk`)
  by the proofs that need it.
* The single active simulation together with its account, orders, positions,
  trades and pending orders is one record `SimState`; every service method
  becomes a function from `SimState` (and arguments) to `SimState` plus result.
-/

namespace FxSim

/-- Minutes since an epoch lying on a Monday 00:00. -/
abbrev Time := Nat

/-- Python `timestamp.weekday()`: Monday = 0, …, Sunday = 6. -/
def weekday (t : Time) : Nat := (t / 1440) % 7

/-- Python `timestamp.hour`. -/
def hourOf (t : Time) : Nat := (t % 1440) / 60

/-- Python `timestamp.minute`. -/
def minuteOf (t : Time) : Nat := t % 60

/-- Python `timestamp.replace(minute=0, second=0, microsecond=0)`. -/
def truncHour (t : Time) : Time := (t / 60) * 60

/-- The four supported timeframes. -/
inductive Timeframe where
  | M10
  | H1
  | D1
  | W1
deriving DecidableEq, Repr

/-- A row of the `candles` table.  `opn` is the source's `open` column
(`open` is a Lean keyword). -/
structure Candle where
  timeframe : Timeframe
  timestamp : Time
  opn : ℚ
  high : ℚ
  low : ℚ
  close : ℚ
  volume : ℤ
deriving DecidableEq, Repr

/-- The candle table: a bag of rows. -/
abbrev Store := List Candle

/-- The unique index `idx_candles_timeframe_timestamp` on
`(timeframe, timestamp)`. -/
def StoreOk (store : Store) : Prop :=
  (store.map (fun c => (c.timeframe, c.timestamp))).Nodup

/-- `is_market_open` from market_data_service.py: Sunday closed, Saturday
closed from 07:00, Monday closed before 07:00. -/
def is_market_open (t : Time) : Bool :=
  if weekday t = 6 then false
  else if weekday t = 5 ∧ 7 ≤ hourOf t then false
  else if weekday t = 0 ∧ hourOf t < 7 then false
  else true

/-- `filter_market_hours`: W1 and D1 are passed through; H1 and M10 keep only
candles whose timestamp is within market hours. -/
def filter_market_hours (candles : List Candle) (timeframe : Timeframe) :
    List Candle :=
  if timeframe = .W1 ∨ timeframe = .D1 then candles
  else candles.filter (fun c => is_market_open c.timestamp)

/-- A candle row serialised to a result dict (`timestamp/open/high/low/close/volume`). -/
structure Bar where
  timestamp : Time
  opn : ℚ
  high : ℚ
  low : ℚ
  close : ℚ
  volume : ℤ
deriving DecidableEq, Repr

def candleToBar (c : Candle) : Bar :=
  { timestamp := c.timestamp, opn := c.opn, high := c.high, low := c.low,
    close := c.close, volume := c.volume }

/-- `ORDER BY timestamp ASC` on a query result. -/
def sortAsc (cs : List Candle) : List Candle :=
  cs.insertionSort (fun a b => a.timestamp ≤ b.timestamp)

/-- A SELECT with `ORDER BY timestamp ASC`. -/
def queryAsc (store : Store) (p : Candle → Bool) : List Candle :=
  sortAsc (store.filter p)

/-- A SELECT with `ORDER BY timestamp DESC`. -/
def queryDesc (store : Store) (p : Candle → Bool) : List Candle :=
  (queryAsc store p).reverse

/-- `MarketDataService.get_candles_before`: candles of `timeframe` at or before
`before_time`, newest `limit * 2` rows, market-hours filtered, truncated to
`limit` and returned oldest-first. -/
def get_candles_before (store : Store) (timeframe : Timeframe)
    (before_time : Time) (limit : Nat) : List Bar :=
  let candles := (queryDesc store (fun c =>
    decide (c.timeframe = timeframe ∧ c.timestamp ≤ before_time))).take (limit * 2)
  let candles := filter_market_hours candles timeframe
  let candles := candles.take limit
  candles.reverse.map candleToBar

/-- `MarketDataService.get_current_price`: close of the newest candle of
`timeframe` at or before `current_time`. -/
def get_current_price (store : Store) (timeframe : Timeframe)
    (current_time : Time) : Option ℚ :=
  ((queryDesc store (fun c =>
    decide (c.timeframe = timeframe ∧ c.timestamp ≤ current_time))).head?).map
    (·.close)

/-- `MarketDataService.get_candle_at_time`: the newest candle of `timeframe`
at or before `current_time`. -/
def get_candle_at_time (store : Store) (timeframe : Timeframe)
    (current_time : Time) : Option Candle :=
  (queryDesc store (fun c =>
    decide (c.timeframe = timeframe ∧ c.timestamp ≤ current_time))).head?

/-- `MarketDataService.calculate_candle_start_time`. -/
def calculate_candle_start_time (timeframe : Timeframe) (current_time : Time) :
    Time :=
  match timeframe with
  | .M10 => (current_time / 60) * 60 + (minuteOf current_time / 10) * 10
  | .H1 => truncHour current_time
  | .D1 =>
    let day_start := (current_time / 1440) * 1440 + 7 * 60
    if hourOf current_time < 7 then day_start - 1440 else day_start
  | .W1 =>
    let week_start :=
      ((current_time - weekday current_time * 1440) / 1440) * 1440 + 7 * 60
    if weekday current_time = 0 ∧ hourOf current_time < 7 then
      week_start - 7 * 1440
    else week_start

/-- The next-finer timeframe that `generatePartialCandle` aggregates from
(`none` for the base timeframe M10). -/
def sourceTimeframe : Timeframe → Option Timeframe
  | .M10 => none
  | .H1 => some .M10
  | .D1 => some .H1
  | .W1 => some .D1

/-- The aggregation core of `MarketDataService.generate_partial_candle`:
source candles in `[start_time, current_time]`, market-hours filtered, folded
into one bar (first open, max high, min low, last close, summed volume). -/
def generateFrom (store : Store) (source : Timeframe)
    (start_time current_time : Time) : Option Bar :=
  match filter_market_hours (queryAsc store (fun c =>
    decide (c.timeframe = source ∧ start_time ≤ c.timestamp ∧
      c.timestamp ≤ current_time))) source with
  | [] => none
  | c0 :: rest =>
    some { timestamp := start_time
           opn := c0.opn
           high := (rest.map (·.high)).foldl max c0.high
           low := (rest.map (·.low)).foldl min c0.low
           close := ((c0 :: rest).getLast (List.cons_ne_nil c0 rest)).close
           volume := ((c0 :: rest).map (·.volume)).sum }

/-- `MarketDataService.generate_partial_candle` (the name is camel-cased in
this development): synthesise the still-open bar of `timeframe` starting at
`start_time` from the next-finer timeframe's data up to `current_time`;
`none` for the base timeframe and when no source data exists. -/
def generatePartialCandle (store : Store) (timeframe : Timeframe)
    (start_time current_time : Time) : Option Bar :=
  match sourceTimeframe timeframe with
  | none => none
  | some src => generateFrom store src start_time current_time

/-- Append the synthesised bar when it exists (steps 4–5 of
`get_candles_with_partial_last` and the analogous tail of both H1 helpers). -/
def appendSynth (store : Store) (l : List Bar) (timeframe : Timeframe)
    (start_time current_time : Time) : List Bar :=
  match generatePartialCandle store timeframe start_time current_time with
  | some b => l ++ [b]
  | none => l

/-- Python `lst = lst[-limit:] if len(lst) > limit else lst`; note that
`lst[-0:]` is the whole list. -/
def pyTailLimit (l : List Bar) (limit : Nat) : List Bar :=
  if limit < l.length then
    (if limit = 0 then l else l.drop (l.length - limit))
  else l

/-- The in-progress H1 accumulator used while grouping M10 rows by hour:
the bar built so far plus the `_first_time` / `_last_time` bookkeeping keys. -/
structure H1Acc where
  bar : Bar
  first_time : Time
  last_time : Time
deriving DecidableEq, Repr

/-- A fresh accumulator from the first M10 candle of an hour. -/
def initAcc (key : Time) (c : Candle) : H1Acc :=
  { bar := { timestamp := key, opn := c.opn, high := c.high, low := c.low,
             close := c.close, volume := c.volume }
    first_time := c.timestamp
    last_time := c.timestamp }

/-- `open` update of the grouping loops: an earlier candle fixes `open`. -/
def mergeOpen (a : H1Acc) (c : Candle) : H1Acc :=
  if c.timestamp < a.first_time then
    { a with bar := { a.bar with opn := c.opn }, first_time := c.timestamp }
  else a

/-- `close` update of the grouping loops: a later candle fixes `close`. -/
def mergeClose (a : H1Acc) (c : Candle) : H1Acc :=
  if a.last_time < c.timestamp then
    { a with bar := { a.bar with close := c.close }, last_time := c.timestamp }
  else a

/-- Merge one more M10 candle into an hour's accumulator (the `else` branch of
the grouping loops: earliest candle fixes `open`, latest fixes `close`,
high/low/volume folded). -/
def mergeAcc (a : H1Acc) (c : Candle) : H1Acc :=
  { mergeClose (mergeOpen a c) c with bar :=
    { (mergeClose (mergeOpen a c) c).bar with
        high := max (mergeClose (mergeOpen a c) c).bar.high c.high
        low := min (mergeClose (mergeOpen a c) c).bar.low c.low
        volume := (mergeClose (mergeOpen a c) c).bar.volume + c.volume } }

/-- Update the insertion-ordered association list behind the Python dict
`generated_h1` / `h1_candles` at `key` with candle `c`. -/
def updateAssoc (l : List (Time × H1Acc)) (key : Time) (c : Candle) :
    List (Time × H1Acc) :=
  match l with
  | [] => [(key, initAcc key c)]
  | (k, a) :: rest =>
    if k = key then (k, mergeAcc a c) :: rest
    else (k, a) :: updateAssoc rest key c

/-- One step of the M10-to-H1 grouping loop: bucket the candle under its
hour start, skipping hours outside `missing_timestamps` when restricted. -/
def groupStep (restrict : Option (List Time)) (acc : List (Time × H1Acc))
    (c : Candle) : List (Time × H1Acc) :=
  match restrict with
  | some missing =>
    if truncHour c.timestamp ∈ missing then
      updateAssoc acc (truncHour c.timestamp) c
    else acc
  | none => updateAssoc acc (truncHour c.timestamp) c

/-- The M10-to-H1 grouping loop shared by `_get_h1_with_gap_fill` (which only
keeps hours in `missing_timestamps`, passed as `some missing`) and
`_generate_h1_from_m10` (no restriction, `none`). -/
def groupM10 (restrict : Option (List Time)) (candles : List Candle) :
    List (Time × H1Acc) :=
  candles.foldl (groupStep restrict) []

/-- `ORDER BY timestamp` / `list.sort(key=timestamp)` on bars. -/
def sortBarsAsc (l : List Bar) : List Bar :=
  l.insertionSort (fun a b => a.timestamp ≤ b.timestamp)

/-- `MarketDataService._generate_h1_from_m10`: when no H1 rows exist, derive
the whole H1 series from M10 rows (grouped by hour), replace the current hour
by the synthesised bar and truncate to `limit`. -/
def generateH1FromM10 (store : Store) (current_time : Time) (limit : Nat) :
    List Bar × Bool :=
  match (queryDesc store (fun c =>
    decide (c.timeframe = .M10 ∧ c.timestamp ≤ current_time))).take
      (limit * 6 * 2) with
  | [] => ([], true)
  | q0 :: qrest =>
    (pyTailLimit (appendSynth store
      ((sortBarsAsc ((groupM10 none
        ((filter_market_hours (q0 :: qrest) .M10).reverse)).map
        (fun e => e.2.bar))).filter (fun b =>
          b.timestamp ≠ truncHour current_time)) .H1
      (truncHour current_time) current_time) limit, false)

/-- `MarketDataService._get_h1_with_gap_fill`: H1 rows from the table, hours
missing from the table regenerated from M10 rows (grouped by hour, only for
the hour-starts that are expected within market hours but absent from the
table), the current hour replaced by the synthesised bar. -/
def gapFillCons (store : Store) (c0 : Bar) (h1rest : List Bar)
    (current_time : Time) (limit : Nat) : List Bar × Bool :=
  match (if c0.timestamp ≤ current_time then
      ((List.range ((current_time - c0.timestamp) / 60 + 1)).map
        (fun k => c0.timestamp + 60 * k)).filterMap
        (fun u => if is_market_open u then some (truncHour u) else none)
    else []).filter
      (fun e => ¬ e ∈ (c0 :: h1rest).map (·.timestamp)) with
  | [] =>
    (appendSynth store ((c0 :: h1rest).filter (fun b =>
        b.timestamp ≠ calculate_candle_start_time .H1 current_time)) .H1
      (calculate_candle_start_time .H1 current_time) current_time, false)
  | m0 :: ms =>
    (pyTailLimit (appendSynth store
      ((sortBarsAsc ((c0 :: h1rest) ++ (groupM10 (some (m0 :: ms))
        (filter_market_hours (queryAsc store (fun c =>
          decide (c.timeframe = .M10 ∧ ms.foldl min m0 ≤ c.timestamp ∧
            c.timestamp < ms.foldl max m0 + 60))) .M10)).map
        (fun e => e.2.bar))).filter (fun b =>
          b.timestamp ≠ calculate_candle_start_time .H1 current_time)) .H1
      (calculate_candle_start_time .H1 current_time) current_time) limit,
      false)

/-- `MarketDataService._get_h1_with_gap_fill`: H1 rows from the table, hours
missing from the table regenerated from M10 rows via `gapFillCons`. -/
def getH1WithGapFill (store : Store) (current_time : Time) (limit : Nat) :
    List Bar × Bool :=
  match get_candles_before store .H1 current_time limit with
  | [] => generateH1FromM10 store current_time limit
  | c0 :: h1rest => gapFillCons store c0 h1rest current_time limit

/-- Step 2.5 of `get_candles_with_partial_last` for D1: a daily bar stamped
before 07:00 is re-stamped to the same day's 07:00. -/
def adjustD1 (b : Bar) : Bar :=
  if hourOf b.timestamp < 7 then
    { b with timestamp := (b.timestamp / 1440) * 1440 + 7 * 60 }
  else b

/-- `MarketDataService.get_candles_with_partial_last`: the no-look-ahead
series query.  M10 is returned as stored; H1 goes through the gap-filling
helper; D1/W1 take the stored closed bars, re-stamp D1 bars to 07:00, drop the
stored bar of the current period and append the synthesised one. -/
def getCandlesWithPartialLast (store : Store) (timeframe : Timeframe)
    (current_time : Time) (limit : Nat) : List Bar × Bool :=
  match timeframe with
  | .M10 =>
    let candles := get_candles_before store .M10 current_time limit
    (candles, candles.isEmpty)
  | .H1 => getH1WithGapFill store current_time limit
  | _ =>
    match get_candles_before store timeframe current_time limit with
    | [] => ([], true)
    | a0 :: arest =>
      (appendSynth store
        ((if timeframe = .D1 then (a0 :: arest).map adjustD1
          else (a0 :: arest)).filter (fun b =>
            b.timestamp ≠ calculate_candle_start_time timeframe current_time))
        timeframe (calculate_candle_start_time timeframe current_time)
        current_time, false)

/-! ## The trading ledger (trading_service.py, simulation_service.py) -/

/-- `LOT_UNIT`: currency units per standard lot. -/
def LOT_UNIT : ℚ := 100000

/-- `PIPS_UNIT`: one pip of the modelled pair (0.01). -/
def PIPS_UNIT : ℚ := 1 / 100

/-- Python `round` to an integer: banker's rounding (round half to even). -/
def roundHalfEven (x : ℚ) : ℤ :=
  let n := ⌊x⌋
  let f := x - n
  if f < 1 / 2 then n
  else if 1 / 2 < f then n + 1
  else if n % 2 = 0 then n else n + 1

/-- Python `round(x, digits)` on exact rationals. -/
def roundTo (digits : Nat) (x : ℚ) : ℚ :=
  (roundHalfEven (x * 10 ^ digits) : ℚ) / 10 ^ digits

inductive Side where
  | buy
  | sell
deriving DecidableEq, Repr

inductive PosStatus where
  | opened
  | closed
deriving DecidableEq, Repr

inductive OrderType where
  | limit
  | stop
deriving DecidableEq, Repr

inductive PendingStatus where
  | pending
  | executed
  | cancelled
deriving DecidableEq, Repr

inductive SimStatus where
  | created
  | running
  | paused
  | stopped
deriving DecidableEq, Repr

/-- An executed market order (`orders` table). -/
structure Order where
  id : Nat
  side : Side
  lot_size : ℚ
  entry_price : ℚ
  executed_at : Time
deriving DecidableEq, Repr

/-- A position (`positions` table). -/
structure Position where
  id : Nat
  side : Side
  lot_size : ℚ
  entry_price : ℚ
  sl_price : Option ℚ := none
  tp_price : Option ℚ := none
  sl_pips : Option ℚ := none
  tp_pips : Option ℚ := none
  status : PosStatus
  opened_at : Time
  closed_at : Option Time := none
deriving DecidableEq, Repr

/-- A closed trade record (`trades` table). -/
structure Trade where
  position_id : Nat
  side : Side
  lot_size : ℚ
  entry_price : ℚ
  exit_price : ℚ
  realized_pnl : ℚ
  realized_pnl_pips : ℚ
  opened_at : Time
  closed_at : Time
deriving DecidableEq, Repr

/-- A resting limit/stop order (`pending_orders` table). -/
structure PendingOrder where
  id : Nat
  order_type : OrderType
  side : Side
  lot_size : ℚ
  trigger_price : ℚ
  status : PendingStatus
  executed_at : Option Time := none
deriving DecidableEq, Repr

/-- The account row of the simulation (`accounts` table plus the
`consecutive_losses` counter used by trading_service.py). -/
structure Account where
  initial_balance : ℚ
  balance : ℚ
  realized_pnl : ℚ
  consecutive_losses : Nat
deriving DecidableEq, Repr

/-- The single active simulation with everything it owns.  `account` is an
`Option` because the service guards every use with an `if not account` check. -/
structure SimState where
  status : SimStatus
  current_time : Time
  account : Option Account
  orders : List Order
  positions : List Position
  trades : List Trade
  pending_orders : List PendingOrder
  next_id : Nat
  store : Store
deriving DecidableEq, Repr

/-- The outcome of a service call: success, or the `{"error": …}` dict. -/
inductive Res where
  | ok
  | error (msg : String)
deriving DecidableEq, Repr

def Res.isError : Res → Bool
  | .ok => false
  | .error _ => true

/-- `_get_active_simulation` finds a simulation iff the status is
created/running/paused. -/
def simActive (st : SimState) : Prop :=
  st.status = .created ∨ st.status = .running ∨ st.status = .paused

instance (st : SimState) : Decidable (simActive st) := by
  unfold simActive; infer_instance

/-- Python truthiness of an optional number (`None` and `0` are falsy). -/
def truthy : Option ℚ → Bool
  | none => false
  | some v => v != 0

/-- `TradingService._calculate_required_margin`:
`price × lot × 100,000 / 25` (25× leverage, 100,000 units per lot). -/
def _calculate_required_margin (price lot_size : ℚ) : ℚ :=
  price * lot_size * 100000 / 25

/-- The open positions of the simulation. -/
def open_positions (st : SimState) : List Position :=
  st.positions.filter (fun p => decide (p.status = .opened))

/-- `TradingService._get_total_used_margin`: sum of the open positions'
required margins. -/
def _get_total_used_margin (st : SimState) : ℚ :=
  ((open_positions st).map
    (fun p => _calculate_required_margin p.entry_price p.lot_size)).sum

/-- SL assignment in `create_order` / `set_sltp`: an absolute price wins and
fixes the pip offset; otherwise a pip offset fixes the absolute price. -/
def setSL (p : Position) (side : Side) (base_price : ℚ)
    (sl_price sl_pips : Option ℚ) : Position :=
  match sl_price with
  | some v =>
    { p with sl_price := some v
             sl_pips := some (if side = .buy then (v - base_price) / PIPS_UNIT
               else (base_price - v) / PIPS_UNIT) }
  | none =>
    match sl_pips with
    | some v =>
      { p with sl_pips := some v
               sl_price := some (if side = .buy then base_price + v * PIPS_UNIT
                 else base_price - v * PIPS_UNIT) }
    | none => p

/-- TP assignment in `create_order` / `set_sltp`, dual to `setSL`. -/
def setTP (p : Position) (side : Side) (base_price : ℚ)
    (tp_price tp_pips : Option ℚ) : Position :=
  match tp_price with
  | some v =>
    { p with tp_price := some v
             tp_pips := some (if side = .buy then (v - base_price) / PIPS_UNIT
               else (base_price - v) / PIPS_UNIT) }
  | none =>
    match tp_pips with
    | some v =>
      { p with tp_pips := some v
               tp_price := some (if side = .buy then base_price + v * PIPS_UNIT
                 else base_price - v * PIPS_UNIT) }
    | none => p

/-- `TradingService.create_order`: market order with margin check; every
rejection returns the state unchanged. -/
def create_order (st : SimState) (side : Side) (lot_size : ℚ)
    (sl_price tp_price sl_pips tp_pips : Option ℚ) : SimState × Res :=
  if ¬ simActive st then (st, .error "No active simulation")
  else if ¬ (st.status = .running ∨ st.status = .paused) then
    (st, .error "Simulation is not running or paused")
  else
    match st.account with
    | none => (st, .error "Account not found")
    | some account =>
      match get_current_price st.store .M10 st.current_time with
      | none => (st, .error "Could not get current price")
      | some current_price =>
        if current_price = 0 then (st, .error "Could not get current price")
        else
          if account.balance < _get_total_used_margin st +
              _calculate_required_margin current_price lot_size then
            (st, .error "Insufficient margin")
          else
            let order : Order :=
              { id := st.next_id, side := side, lot_size := lot_size,
                entry_price := current_price, executed_at := st.current_time }
            let pos : Position :=
              { id := st.next_id + 1, side := side, lot_size := lot_size,
                entry_price := current_price, status := .opened,
                opened_at := st.current_time }
            let pos := setSL pos side current_price sl_price sl_pips
            let pos := setTP pos side current_price tp_price tp_pips
            ({ st with orders := st.orders ++ [order],
                       positions := st.positions ++ [pos],
                       next_id := st.next_id + 2 }, .ok)

/-- The pip P&L of closing at `exit_price` (buy: `(exit − entry) / 0.01`,
sell: `(entry − exit) / 0.01`). -/
def pnlPips (side : Side) (entry_price exit_price : ℚ) : ℚ :=
  if side = .buy then (exit_price - entry_price) / PIPS_UNIT
  else (entry_price - exit_price) / PIPS_UNIT

/-- The consecutive-loss streak update: +1 on a loss, reset on a ≥ 30-pip win,
otherwise unchanged. -/
def updateStreak (consecutive_losses : Nat) (pips : ℚ) : Nat :=
  if pips < 0 then consecutive_losses + 1
  else if 30 ≤ pips then 0
  else consecutive_losses

/-- Mark position `id` closed at `t` in a position list. -/
def closeInList (positions : List Position) (id : Nat) (t : Time) :
    List Position :=
  positions.map (fun q =>
    if q.id = id then { q with status := .closed, closed_at := some t } else q)

/-- `TradingService.close_position`: close at the current M10 price, record
the trade, credit the rounded P&L and update the streak. -/
def close_position (st : SimState) (position_id : Nat) : SimState × Res :=
  if ¬ simActive st then (st, .error "No active simulation")
  else if ¬ (st.status = .running ∨ st.status = .paused) then
    (st, .error "Simulation is not running or paused")
  else
    match st.positions.find? (fun p =>
      decide (p.id = position_id ∧ p.status = .opened)) with
    | none => (st, .error "Position not found")
    | some position =>
      match st.account with
      | none => (st, .error "Account not found")
      | some account =>
        match get_current_price st.store .M10 st.current_time with
        | none => (st, .error "Could not get current price")
        | some current_price =>
          if current_price = 0 then (st, .error "Could not get current price")
          else
            let pips := pnlPips position.side position.entry_price current_price
            let realized_pnl := pips * position.lot_size * LOT_UNIT * PIPS_UNIT
            let trade : Trade :=
              { position_id := position.id, side := position.side,
                lot_size := position.lot_size,
                entry_price := position.entry_price,
                exit_price := current_price,
                realized_pnl := roundTo 2 realized_pnl,
                realized_pnl_pips := roundTo 1 pips,
                opened_at := position.opened_at,
                closed_at := st.current_time }
            ({ st with
                positions := closeInList st.positions position.id st.current_time,
                trades := st.trades ++ [trade],
                account := some { account with
                  balance := account.balance + roundTo 2 realized_pnl,
                  realized_pnl := account.realized_pnl + roundTo 2 realized_pnl,
                  consecutive_losses :=
                    updateStreak account.consecutive_losses pips } }, .ok)

/-- `TradingService._close_position_with_price`: close `position` at a given
price (SL/TP path); when the account row is missing the trade is still
recorded but no balance is updated, exactly as in the source. -/
def closePositionWithPrice (st : SimState) (position : Position)
    (exit_price : ℚ) (current_time : Time) : SimState :=
  let pips := pnlPips position.side position.entry_price exit_price
  let realized_pnl := pips * position.lot_size * LOT_UNIT * PIPS_UNIT
  let trade : Trade :=
    { position_id := position.id, side := position.side,
      lot_size := position.lot_size, entry_price := position.entry_price,
      exit_price := exit_price,
      realized_pnl := roundTo 2 realized_pnl,
      realized_pnl_pips := roundTo 1 pips,
      opened_at := position.opened_at, closed_at := current_time }
  { st with
      positions := closeInList st.positions position.id current_time,
      trades := st.trades ++ [trade],
      account := match st.account with
        | none => none
        | some account => some { account with
            balance := account.balance + roundTo 2 realized_pnl,
            realized_pnl := account.realized_pnl + roundTo 2 realized_pnl,
            consecutive_losses :=
              updateStreak account.consecutive_losses pips } }

/-- The SL condition of `check_sltp_triggers` against one M10 bar (note the
Python truthiness guard `if position.sl_price:`). -/
def sl_fires (p : Position) (c : Candle) : Bool :=
  match p.sl_price with
  | none => false
  | some v =>
    v != 0 && (if p.side = .buy then decide (c.low ≤ v) else decide (v ≤ c.high))

/-- The TP condition of `check_sltp_triggers` against one M10 bar. -/
def tp_fires (p : Position) (c : Candle) : Bool :=
  match p.tp_price with
  | none => false
  | some v =>
    v != 0 && (if p.side = .buy then decide (v ≤ c.high) else decide (c.low ≤ v))

/-- An entry of the `triggered_positions` result list. -/
structure TriggeredInfo where
  position_id : Nat
  trigger_type : String
  exit_price : ℚ
deriving DecidableEq, Repr

/-- The positions `check_sltp_triggers` evaluates: open with SL or TP set. -/
def sltpCandidates (st : SimState) : List Position :=
  st.positions.filter (fun p =>
    decide (p.status = .opened ∧ (p.sl_price ≠ none ∨ p.tp_price ≠ none)))

/-- One iteration of the `check_sltp_triggers` loop. -/
def sltpStep (c : Candle) (current_time : Time)
    (acc : SimState × List TriggeredInfo × List Nat) (p : Position) :
    SimState × List TriggeredInfo × List Nat :=
  if sl_fires p c ∧ tp_fires p c then (acc.1, acc.2.1, acc.2.2 ++ [p.id])
  else if sl_fires p c then
    (closePositionWithPrice acc.1 p (p.sl_price.getD 0) current_time,
      acc.2.1 ++ [⟨p.id, "sl", p.sl_price.getD 0⟩], acc.2.2)
  else if tp_fires p c then
    (closePositionWithPrice acc.1 p (p.tp_price.getD 0) current_time,
      acc.2.1 ++ [⟨p.id, "tp", p.tp_price.getD 0⟩], acc.2.2)
  else acc

/-- `TradingService.check_sltp_triggers`: evaluate SL/TP for every open
position against the current M10 bar; a position whose SL and TP both fire is
reported as a conflict and left open. -/
def check_sltp_triggers (st : SimState) (current_time : Time) :
    SimState × List TriggeredInfo × List Nat :=
  match sltpCandidates st with
  | [] => (st, [], [])
  | p :: rest =>
    match get_candle_at_time st.store .M10 current_time with
    | none => (st, [], [])
    | some candle =>
      (p :: rest).foldl (sltpStep candle current_time) (st, [], [])

/-- The execution condition of `check_pending_orders_execution`:
limit buy / stop sell fire on `low ≤ trigger`, limit sell / stop buy on
`high ≥ trigger`. -/
def should_execute (po : PendingOrder) (c : Candle) : Bool :=
  match po.order_type, po.side with
  | .limit, .buy => decide (c.low ≤ po.trigger_price)
  | .limit, .sell => decide (po.trigger_price ≤ c.high)
  | .stop, .buy => decide (po.trigger_price ≤ c.high)
  | .stop, .sell => decide (c.low ≤ po.trigger_price)

/-- One iteration of the `check_pending_orders_execution` loop: on a trigger,
create the order and the open position at the trigger price and mark the
pending order executed. -/
def pendingStep (c : Candle) (current_time : Time) (st : SimState)
    (po : PendingOrder) : SimState :=
  if should_execute po c then
    let order : Order :=
      { id := st.next_id, side := po.side, lot_size := po.lot_size,
        entry_price := po.trigger_price, executed_at := current_time }
    let pos : Position :=
      { id := st.next_id + 1, side := po.side, lot_size := po.lot_size,
        entry_price := po.trigger_price, status := .opened,
        opened_at := current_time }
    { st with
        orders := st.orders ++ [order],
        positions := st.positions ++ [pos],
        pending_orders := st.pending_orders.map (fun q =>
          if q.id = po.id then
            { q with status := .executed, executed_at := some current_time }
          else q),
        next_id := st.next_id + 2 }
  else st

/-- `TradingService.check_pending_orders_execution`. -/
def check_pending_orders_execution (st : SimState) (current_time : Time) :
    SimState :=
  match st.pending_orders.filter (fun po => decide (po.status = .pending)) with
  | [] => st
  | po :: rest =>
    match get_candle_at_time st.store .M10 current_time with
    | none => st
    | some candle =>
      (po :: rest).foldl (pendingStep candle current_time) st

/-- `TradingService.create_pending_order`. -/
def create_pending_order (st : SimState) (order_type : OrderType)
    (side : Side) (lot_size trigger_price : ℚ) : SimState × Res :=
  if ¬ simActive st then (st, .error "No active simulation")
  else if ¬ (st.status = .running ∨ st.status = .paused) then
    (st, .error "Simulation is not running or paused")
  else
    ({ st with
        pending_orders := st.pending_orders ++
          [{ id := st.next_id, order_type := order_type, side := side,
             lot_size := lot_size, trigger_price := trigger_price,
             status := .pending }],
        next_id := st.next_id + 1 }, .ok)

/-- `SimulationService._find_next_available_data`: the first of (at most 100)
candles after `after_time` whose timestamp lies within market hours. -/
def findNextAvailableData (store : Store) (timeframe : Timeframe)
    (after_time : Time) : Option Time :=
  (((queryAsc store (fun c =>
    decide (c.timeframe = timeframe ∧ after_time < c.timestamp))).take
      100).find? (fun c => is_market_open c.timestamp)).map (·.timestamp)

/-- The time-settling logic of `SimulationService.advance_time`: outside
market hours, or when no M10 candle lies within the last 600 seconds before
the requested time, jump to the next available in-hours data point; `none`
means end of data. -/
def settleTime (store : Store) (new_time : Time) : Option Time :=
  if ¬ is_market_open new_time then
    findNextAvailableData store .M10 new_time
  else
    match get_candles_before store .M10 new_time 1 with
    | [] => findNextAvailableData store .M10 new_time
    | b :: _ =>
      if 10 * 60 < new_time * 60 - b.timestamp * 60 then
        findNextAvailableData store .M10 new_time
      else some new_time

/-- `SimulationService.advance_time`: settle the target time (skipping closed
markets and data gaps), commit it, then run pending-order execution and SL/TP
checks at the settled time. -/
def advance_time (st : SimState) (new_time : Time) : SimState × Res :=
  if ¬ simActive st then (st, .error "No active simulation")
  else if st.status ≠ .running then (st, .error "Simulation is not running")
  else
    match settleTime st.store new_time with
    | none =>
      (st, .error "No more data available - simulation reached end of data")
    | some t =>
      ((check_sltp_triggers
        (check_pending_orders_execution { st with current_time := t } t) t).1,
        .ok)

/-- The ledger-mutating operations reachable through the service layer. -/
inductive Op where
  | createOrder (side : Side) (lot_size : ℚ)
      (sl_price tp_price sl_pips tp_pips : Option ℚ)
  | closePosition (position_id : Nat)
  | createPendingOrder (order_type : OrderType) (side : Side)
      (lot_size trigger_price : ℚ)
  | checkPendingOrders (t : Time)
  | checkSLTP (t : Time)
deriving Repr

/-- Apply one operation, keeping the resulting state. -/
def applyOp (st : SimState) : Op → SimState
  | .createOrder side lot slP tpP slp tpp =>
    (create_order st side lot slP tpP slp tpp).1
  | .closePosition id => (close_position st id).1
  | .createPendingOrder ot side lot trig =>
    (create_pending_order st ot side lot trig).1
  | .checkPendingOrders t => check_pending_orders_execution st t
  | .checkSLTP t => (check_sltp_triggers st t).1

/-- Run a sequence of operations. -/
def runOps (st : SimState) (ops : List Op) : SimState := ops.foldl applyOp st

/-- `SimulationService.start` (plus an arbitrary later status): a fresh
simulation with a fresh account holding the initial balance. -/
def initState (status : SimStatus) (start_time : Time) (initial_balance : ℚ)
    (store : Store) : SimState :=
  { status := status, current_time := start_time,
    account := some { initial_balance := initial_balance,
                      balance := initial_balance, realized_pnl := 0,
                      consecutive_losses := 0 },
    orders := [], positions := [], trades := [], pending_orders := [],
    next_id := 0, store := store }

/-! ## Concrete scenarios and theorems for the claims -/

/-- A flat M10 candle quoting `price` at `ts`. -/
def flatM10 (ts : Time) (price : ℚ) : Candle :=
  { timeframe := .M10, timestamp := ts, opn := price, high := price,
    low := price, close := price, volume := 0 }

/-- Scenario for C7: one open buy position, entry 150, lot 0.1; the market
quotes 151 (Tuesday 10:00 of the epoch week). -/
def exStoreC7 : Store := [flatM10 2040 151]

def exPosC7 : Position :=
  { id := 1, side := .buy, lot_size := 1 / 10, entry_price := 150,
    status := .opened, opened_at := 2000 }

def exStC7 : SimState :=
  { status := .running, current_time := 2045,
    account := some { initial_balance := 1000000, balance := 1000000,
                      realized_pnl := 0, consecutive_losses := 0 },
    orders := [], positions := [exPosC7], trades := [], pending_orders := [],
    next_id := 2, store := exStoreC7 }

/-- C7: on every position close the recorded trade carries
`pnl_pips = (exit − entry)/0.01` for a buy and `(entry − exit)/0.01` for a
sell, and `realized_pnl = pnl_pips × lot × 100,000 × 0.01` (both persisted
with the source's 1- resp. 2-decimal rounding); in particular a buy entered
at 150.00 with lot 0.1 exited at 151.00 yields 100.0 pips and 10,000
currency units. -/
theorem C7_pnl_formula :
    (∀ (st : SimState) (position_id : Nat) (p : Position) (price : ℚ),
      (st.status = .running ∨ st.status = .paused) →
      st.positions.find? (fun q =>
        decide (q.id = position_id ∧ q.status = .opened)) = some p →
      st.account ≠ none →
      get_current_price st.store .M10 st.current_time = some price →
      ¬ price = 0 →
      ∃ tr : Trade,
        (close_position st position_id).1.trades = st.trades ++ [tr] ∧
        tr.realized_pnl_pips = roundTo 1 (pnlPips p.side p.entry_price price) ∧
        tr.realized_pnl =
          roundTo 2 (pnlPips p.side p.entry_price price * p.lot_size *
            100000 * (1 / 100))) ∧
    (∃ tr : Trade,
      (close_position exStC7 1).1.trades = [tr] ∧
      tr.realized_pnl_pips = 100 ∧ tr.realized_pnl = 10000 ∧
      tr.entry_price = 150 ∧ tr.exit_price = 151 ∧ tr.lot_size = 1 / 10) := by
  constructor
  · intro st position_id p price hstat hfind hacc hprice hp0
    obtain ⟨acc, hacc⟩ := Option.ne_none_iff_exists'.mp hacc
    have hact : simActive st := by
      rcases hstat with h | h
      · exact Or.inr (Or.inl h)
      · exact Or.inr (Or.inr h)
    unfold close_position
    rw [if_neg (not_not_intro hact), if_neg (not_not_intro hstat), hfind,
      hacc, hprice]
    simp only [if_neg hp0]
    exact ⟨_, rfl, rfl, rfl⟩
  · refine ⟨{ position_id := 1, side := .buy, lot_size := 1 / 10,
              entry_price := 150, exit_price := 151, realized_pnl := 10000,
              realized_pnl_pips := 100, opened_at := 2000, closed_at := 2045 },
      ?_, rfl, rfl, rfl, rfl, rfl⟩
    norm_num [close_position, exStC7, exPosC7, exStoreC7, flatM10, simActive,
      get_current_price, queryDesc, queryAsc, sortAsc, List.insertionSort,
      List.orderedInsert, pnlPips, roundTo, roundHalfEven, LOT_UNIT,
      PIPS_UNIT, closeInList, updateStreak, List.find?]

/-- Witness discharging the hypotheses of `C7_pnl_formula` at the concrete
scenario. -/
theorem C7_pnl_formula_witness :
    ∃ tr : Trade,
      (close_position exStC7 1).1.trades = exStC7.trades ++ [tr] ∧
      tr.realized_pnl_pips =
        roundTo 1 (pnlPips exPosC7.side exPosC7.entry_price 151) ∧
      tr.realized_pnl = roundTo 2 (pnlPips exPosC7.side exPosC7.entry_price
        151 * exPosC7.lot_size * 100000 * (1 / 100)) :=
  C7_pnl_formula.1 exStC7 1 exPosC7 151 (Or.inl rfl) rfl
    (by simp [exStC7]) rfl (by norm_num)

/-- Scenario for C8: four open buy positions (lot 0.01) entered at 150.10,
150.05, 149.70 and 150.01 while the market quotes 150, so that successive
closes realise −10, −5, +30 and −1 pips. -/
def exStC8 : SimState :=
  { status := .running, current_time := 2045,
    account := some { initial_balance := 1000000, balance := 1000000,
                      realized_pnl := 0, consecutive_losses := 0 },
    orders := [],
    positions :=
      [{ id := 1, side := .buy, lot_size := 1 / 100, entry_price := 1501 / 10,
         status := .opened, opened_at := 2000 },
       { id := 2, side := .buy, lot_size := 1 / 100, entry_price := 15005 / 100,
         status := .opened, opened_at := 2000 },
       { id := 3, side := .buy, lot_size := 1 / 100, entry_price := 1497 / 10,
         status := .opened, opened_at := 2000 },
       { id := 4, side := .buy, lot_size := 1 / 100, entry_price := 15001 / 100,
         status := .opened, opened_at := 2000 }],
    trades := [], pending_orders := [], next_id := 5,
    store := [flatM10 2040 150] }

/-- The consecutive-losses counter after a state's account, `none` when the
account row is missing. -/
def streakOf (st : SimState) : Option Nat :=
  st.account.map (·.consecutive_losses)

/-- C8: every position close increments the consecutive-losses counter on a
negative pip P&L, resets it on a ≥ 30-pip win and keeps it otherwise; the
loss pattern [−10, −5, +30, −1] pips yields streaks [1, 2, 0, 1]. -/
theorem C8_consecutive_losses :
    (∀ (st : SimState) (position_id : Nat) (p : Position) (acc : Account)
      (price : ℚ),
      (st.status = .running ∨ st.status = .paused) →
      st.positions.find? (fun q =>
        decide (q.id = position_id ∧ q.status = .opened)) = some p →
      st.account = some acc →
      get_current_price st.store .M10 st.current_time = some price →
      ¬ price = 0 →
      streakOf (close_position st position_id).1 =
        some (if pnlPips p.side p.entry_price price < 0 then
                acc.consecutive_losses + 1
              else if 30 ≤ pnlPips p.side p.entry_price price then 0
              else acc.consecutive_losses)) ∧
    (streakOf ((close_position exStC8 1).1) = some 1 ∧
     streakOf ((close_position (close_position exStC8 1).1 2).1) = some 2 ∧
     streakOf ((close_position (close_position
       (close_position exStC8 1).1 2).1 3).1) = some 0 ∧
     streakOf ((close_position (close_position (close_position
       (close_position exStC8 1).1 2).1 3).1 4).1) = some 1) := by
  constructor
  · intro st position_id p acc price hstat hfind hacc hprice hp0
    have hact : simActive st := by
      rcases hstat with h | h
      · exact Or.inr (Or.inl h)
      · exact Or.inr (Or.inr h)
    unfold close_position
    rw [if_neg (not_not_intro hact), if_neg (not_not_intro hstat), hfind,
      hacc, hprice]
    simp only [if_neg hp0, streakOf, updateStreak, Option.map_some']
  · refine ⟨?_, ?_, ?_, ?_⟩ <;>
      norm_num [close_position, exStC8, flatM10, simActive, streakOf,
        get_current_price, queryDesc, queryAsc, sortAsc, List.insertionSort,
        List.orderedInsert, pnlPips, roundTo, roundHalfEven, LOT_UNIT,
        PIPS_UNIT, closeInList, updateStreak, List.find?]

/-- Witness discharging the hypotheses of `C8_consecutive_losses` at the
concrete scenario (the first close, a 10-pip loss). -/
theorem C8_consecutive_losses_witness :
    streakOf (close_position exStC8 1).1 =
      some (if pnlPips Side.buy (1501 / 10) 150 < 0 then 0 + 1
            else if 30 ≤ pnlPips Side.buy (1501 / 10) 150 then 0 else 0) :=
  C8_consecutive_losses.1 exStC8 1
    { id := 1, side := .buy, lot_size := 1 / 100, entry_price := 1501 / 10,
      status := .opened, opened_at := 2000 }
    { initial_balance := 1000000, balance := 1000000, realized_pnl := 0,
      consecutive_losses := 0 }
    150 (Or.inl rfl) rfl rfl rfl (by norm_num)

/-- Scenario for C4: a single M10 candle quoting 150 while the account
balance is only 100, so a 1-lot order needs margin 600,000 ≫ 100. -/
def exStC4 : SimState :=
  { status := .running, current_time := 2045,
    account := some { initial_balance := 100, balance := 100,
                      realized_pnl := 0, consecutive_losses := 0 },
    orders := [], positions := [], trades := [], pending_orders := [],
    next_id := 0, store := [flatM10 2040 150] }

/-- C4: with a resolvable current price, `create_order` returns an error
whenever `used_margin + price × lot × 100,000 / 25` exceeds the balance, and
every rejection (this one or any other error branch) leaves the state
untouched. -/
theorem C4_margin_check :
    ∀ (st : SimState) (side : Side) (lot_size : ℚ)
      (slP tpP slp tpp : Option ℚ) (price : ℚ),
      get_current_price st.store .M10 st.current_time = some price →
      (∀ acc, st.account = some acc →
        acc.balance <
          _get_total_used_margin st + price * lot_size * 100000 / 25 →
        (create_order st side lot_size slP tpP slp tpp).2.isError = true) ∧
      ((create_order st side lot_size slP tpP slp tpp).2.isError = true →
        (create_order st side lot_size slP tpP slp tpp).1 = st) := by
  intro st side lot_size slP tpP slp tpp price hprice
  constructor
  · intro acc hacc hmargin
    have hm' : acc.balance <
        _get_total_used_margin st + _calculate_required_margin price lot_size :=
      hmargin
    unfold create_order
    by_cases h1 : simActive st
    · by_cases h2 : st.status = .running ∨ st.status = .paused
      · rw [if_neg (not_not_intro h1), if_neg (not_not_intro h2), hacc, hprice]
        by_cases hz : price = 0
        · simp only [if_pos hz]; rfl
        · simp only [if_neg hz, if_pos hm']; rfl
      · rw [if_neg (not_not_intro h1), if_pos h2]; rfl
    · rw [if_pos h1]; rfl
  · intro herr
    have hcases : ∀ stx r,
        create_order st side lot_size slP tpP slp tpp = (stx, r) →
        stx = st ∨ r = Res.ok := by
      intro stx r h
      unfold create_order at h
      repeat' split at h
      all_goals cases h
      all_goals first | exact Or.inl rfl | exact Or.inr rfl
    rcases hres : create_order st side lot_size slP tpP slp tpp with ⟨stx, r⟩
    rcases hcases stx r hres with h | h
    · exact h
    · rw [hres] at herr
      subst h
      simp [Res.isError] at herr

/-- Witness discharging the hypotheses of `C4_margin_check` at the concrete
under-margined scenario. -/
theorem C4_margin_check_witness :
    (create_order exStC4 .buy 1 none none none none).2.isError = true ∧
    (create_order exStC4 .buy 1 none none none none).1 = exStC4 := by
  have h := C4_margin_check exStC4 .buy 1 none none none none 150 rfl
  have herr := h.1
    { initial_balance := 100, balance := 100, realized_pnl := 0,
      consecutive_losses := 0 } rfl
    (by norm_num [_get_total_used_margin, open_positions, exStC4])
  exact ⟨herr, h.2 herr⟩


/-- The order record that pending-order execution creates. -/
def execOrder (st : SimState) (po : PendingOrder) (t : Time) : Order :=
  { id := st.next_id, side := po.side, lot_size := po.lot_size,
    entry_price := po.trigger_price, executed_at := t }

/-- The open position that pending-order execution creates. -/
def execPosition (st : SimState) (po : PendingOrder) (t : Time) : Position :=
  { id := st.next_id + 1, side := po.side, lot_size := po.lot_size,
    entry_price := po.trigger_price, status := .opened, opened_at := t }

/-- A pending order marked executed at `t`. -/
def markExecuted (po : PendingOrder) (t : Time) : PendingOrder :=
  { po with status := .executed, executed_at := some t }

/-- Effect of `check_pending_orders_execution` on a state holding exactly one
pending order. -/
theorem pending_single_effect (st : SimState) (po : PendingOrder) (c : Candle)
    (t : Time) (hpend : st.pending_orders = [po])
    (hstatus : po.status = .pending)
    (hcandle : get_candle_at_time st.store .M10 t = some c) :
    check_pending_orders_execution st t =
      (if should_execute po c then
        { st with
            orders := st.orders ++ [execOrder st po t],
            positions := st.positions ++ [execPosition st po t],
            pending_orders := [markExecuted po t],
            next_id := st.next_id + 2 }
      else st) := by
  have hfilter : st.pending_orders.filter
      (fun q => decide (q.status = .pending)) = [po] := by
    rw [hpend]; simp [hstatus]
  unfold check_pending_orders_execution
  rw [hfilter, hcandle]
  simp only [List.foldl_cons, List.foldl_nil]
  unfold pendingStep
  by_cases hexec : should_execute po c
  · rw [if_pos hexec, if_pos hexec, hpend]
    simp [markExecuted, execOrder, execPosition]
  · rw [if_neg hexec, if_neg hexec]

/-- C6: a pending limit buy / stop sell executes exactly when the bar's low is
at or below the trigger price, a limit sell / stop buy exactly when the bar's
high is at or above it; execution creates the order and an open position with
entry price equal to the trigger price and marks the pending order executed,
while an untriggered order leaves the state (and the pending order) entirely
unchanged. -/
theorem C6_pending_order_triggering :
    ∀ (st : SimState) (po : PendingOrder) (c : Candle) (t : Time),
      st.pending_orders = [po] → po.status = .pending →
      get_candle_at_time st.store .M10 t = some c →
      ((((po.order_type = .limit ∧ po.side = .buy) ∨
          (po.order_type = .stop ∧ po.side = .sell)) ∧
            c.low ≤ po.trigger_price ∨
        ((po.order_type = .limit ∧ po.side = .sell) ∨
          (po.order_type = .stop ∧ po.side = .buy)) ∧
            po.trigger_price ≤ c.high) →
        check_pending_orders_execution st t =
          { st with
              orders := st.orders ++ [execOrder st po t],
              positions := st.positions ++ [execPosition st po t],
              pending_orders := [markExecuted po t],
              next_id := st.next_id + 2 }) ∧
      (¬ (((po.order_type = .limit ∧ po.side = .buy) ∨
          (po.order_type = .stop ∧ po.side = .sell)) ∧
            c.low ≤ po.trigger_price ∨
        ((po.order_type = .limit ∧ po.side = .sell) ∨
          (po.order_type = .stop ∧ po.side = .buy)) ∧
            po.trigger_price ≤ c.high) →
        check_pending_orders_execution st t = st) := by
  intro st po c t hpend hstatus hcandle
  have hse : should_execute po c = true ↔
      (((po.order_type = .limit ∧ po.side = .buy) ∨
          (po.order_type = .stop ∧ po.side = .sell)) ∧
            c.low ≤ po.trigger_price ∨
        ((po.order_type = .limit ∧ po.side = .sell) ∨
          (po.order_type = .stop ∧ po.side = .buy)) ∧
            po.trigger_price ≤ c.high) := by
    rcases hot : po.order_type <;> rcases hside : po.side <;>
      simp [should_execute, hot, hside]
  constructor
  · intro hcond
    rw [pending_single_effect st po c t hpend hstatus hcandle,
      if_pos (hse.mpr hcond)]
  · intro hcond
    rw [pending_single_effect st po c t hpend hstatus hcandle,
      if_neg (fun hb => hcond (hse.mp hb))]

/-- Scenario for C6/C10: one pending 1-lot limit buy at 149 while the bar
quotes low 148 ≤ 149 (so the order triggers), with a nearly empty account. -/
def exPoC6 : PendingOrder :=
  { id := 7, order_type := .limit, side := .buy, lot_size := 1,
    trigger_price := 149, status := .pending }

def exStC6 : SimState :=
  { status := .running, current_time := 2045,
    account := some { initial_balance := 100, balance := 100,
                      realized_pnl := 0, consecutive_losses := 0 },
    orders := [], positions := [], trades := [],
    pending_orders := [exPoC6],
    next_id := 8, store := [flatM10 2040 148] }

/-- Witness discharging the hypotheses of `C6_pending_order_triggering` at
the concrete scenario. -/
theorem C6_pending_order_triggering_witness :
    check_pending_orders_execution exStC6 2045 =
      { exStC6 with
          orders := exStC6.orders ++ [execOrder exStC6 exPoC6 2045],
          positions := exStC6.positions ++ [execPosition exStC6 exPoC6 2045],
          pending_orders := [markExecuted exPoC6 2045],
          next_id := exStC6.next_id + 2 } :=
  (C6_pending_order_triggering exStC6 exPoC6 (flatM10 2040 148) 2045
    rfl rfl rfl).1
    (Or.inl ⟨Or.inl ⟨rfl, rfl⟩, by norm_num [flatM10, exPoC6]⟩)

/-- C10 (implicit): `check_pending_orders_execution` creates the order and
open position unconditionally once the trigger condition holds — even when
the open positions' margin plus the new position's required margin exceeds
the balance — and never applies `create_order`'s insufficient-margin
rejection on this path. -/
theorem C10_pending_execution_bypasses_margin :
    ∀ (st : SimState) (po : PendingOrder) (c : Candle) (t : Time)
      (acc : Account),
      st.pending_orders = [po] → po.status = .pending →
      get_candle_at_time st.store .M10 t = some c →
      st.account = some acc →
      acc.balance < _get_total_used_margin st +
        po.trigger_price * po.lot_size * 100000 / 25 →
      should_execute po c = true →
      (check_pending_orders_execution st t).positions =
        st.positions ++ [execPosition st po t] ∧
      (check_pending_orders_execution st t).pending_orders =
        [markExecuted po t] ∧
      (check_pending_orders_execution st t).account = st.account := by
  intro st po c t acc hpend hstatus hcandle hacc hmargin hexec
  rw [pending_single_effect st po c t hpend hstatus hcandle, if_pos hexec]
  exact ⟨rfl, rfl, rfl⟩

/-- Witness discharging the hypotheses of
`C10_pending_execution_bypasses_margin`: the 1-lot limit buy at 149 requires
margin 596,000 against a balance of 100 and still executes. -/
theorem C10_pending_execution_bypasses_margin_witness :
    (check_pending_orders_execution exStC6 2045).positions =
      exStC6.positions ++ [execPosition exStC6 exPoC6 2045] ∧
    (check_pending_orders_execution exStC6 2045).pending_orders =
      [markExecuted exPoC6 2045] ∧
    (check_pending_orders_execution exStC6 2045).account = exStC6.account :=
  C10_pending_execution_bypasses_margin exStC6 exPoC6 (flatM10 2040 148) 2045
    { initial_balance := 100, balance := 100, realized_pnl := 0,
      consecutive_losses := 0 }
    rfl rfl rfl rfl
    (by norm_num [_get_total_used_margin, open_positions, exStC6, exPoC6])
    (by norm_num [should_execute, exPoC6, flatM10])

/-- A position marked closed at `t`. -/
def markClosed (p : Position) (t : Time) : Position :=
  { p with status := .closed, closed_at := some t }

/-- Effect of `check_sltp_triggers` on a state holding exactly one open
position with an SL or TP level set. -/
theorem sltp_single_effect (st : SimState) (p : Position) (c : Candle)
    (t : Time) (hpos : st.positions = [p]) (hopen : p.status = .opened)
    (hset : p.sl_price ≠ none ∨ p.tp_price ≠ none)
    (hcandle : get_candle_at_time st.store .M10 t = some c) :
    check_sltp_triggers st t =
      (if sl_fires p c ∧ tp_fires p c then (st, [], [p.id])
       else if sl_fires p c then
         (closePositionWithPrice st p (p.sl_price.getD 0) t,
           [⟨p.id, "sl", p.sl_price.getD 0⟩], [])
       else if tp_fires p c then
         (closePositionWithPrice st p (p.tp_price.getD 0) t,
           [⟨p.id, "tp", p.tp_price.getD 0⟩], [])
       else (st, [], [])) := by
  have hcands : sltpCandidates st = [p] := by
    unfold sltpCandidates
    rw [hpos]
    rcases hset with h | h <;> simp [hopen, h]
  unfold check_sltp_triggers
  rw [hcands, hcandle]
  simp only [List.foldl_cons, List.foldl_nil]
  unfold sltpStep
  by_cases hboth : sl_fires p c ∧ tp_fires p c
  · rw [if_pos hboth, if_pos hboth]; rfl
  · rw [if_neg hboth, if_neg hboth]
    by_cases hsl : sl_fires p c = true
    · rw [if_pos hsl, if_pos hsl]; rfl
    · rw [if_neg hsl, if_neg hsl]
      by_cases htp : tp_fires p c = true
      · rw [if_pos htp, if_pos htp]; rfl
      · rw [if_neg htp, if_neg htp]

/-- C5: against one M10 bar, a position whose SL condition alone holds is
closed at the SL price and reported with trigger type "sl"; one whose TP
condition alone holds is closed at the TP price with trigger type "tp"; and
when both conditions hold in the same bar the position is left open and
reported in the conflict list instead. -/
theorem C5_sltp_per_bar :
    ∀ (st : SimState) (p : Position) (c : Candle) (t : Time),
      st.positions = [p] → p.status = .opened →
      p.sl_price ≠ none ∨ p.tp_price ≠ none →
      get_candle_at_time st.store .M10 t = some c →
      (sl_fires p c = true → tp_fires p c = false →
        (check_sltp_triggers st t).1.positions = [markClosed p t] ∧
        (∃ tr, (check_sltp_triggers st t).1.trades = st.trades ++ [tr] ∧
          tr.position_id = p.id ∧ tr.exit_price = p.sl_price.getD 0) ∧
        (check_sltp_triggers st t).2.1 = [⟨p.id, "sl", p.sl_price.getD 0⟩] ∧
        (check_sltp_triggers st t).2.2 = []) ∧
      (tp_fires p c = true → sl_fires p c = false →
        (check_sltp_triggers st t).1.positions = [markClosed p t] ∧
        (∃ tr, (check_sltp_triggers st t).1.trades = st.trades ++ [tr] ∧
          tr.position_id = p.id ∧ tr.exit_price = p.tp_price.getD 0) ∧
        (check_sltp_triggers st t).2.1 = [⟨p.id, "tp", p.tp_price.getD 0⟩] ∧
        (check_sltp_triggers st t).2.2 = []) ∧
      (sl_fires p c = true → tp_fires p c = true →
        (check_sltp_triggers st t).1 = st ∧
        (check_sltp_triggers st t).1.positions = [p] ∧
        (check_sltp_triggers st t).2.1 = [] ∧
        (check_sltp_triggers st t).2.2 = [p.id]) := by
  intro st p c t hpos hopen hset hcandle
  have heff := sltp_single_effect st p c t hpos hopen hset hcandle
  refine ⟨?_, ?_, ?_⟩
  · intro hsl htp
    rw [heff, if_neg (by simp [hsl, htp]), if_pos hsl]
    refine ⟨?_, ⟨_, rfl, rfl, rfl⟩, rfl, rfl⟩
    show closeInList st.positions p.id t = [markClosed p t]
    rw [hpos]
    simp [closeInList, markClosed]
  · intro htp hsl
    rw [heff, if_neg (by simp [hsl, htp]), if_neg (by simp [hsl]),
      if_pos htp]
    refine ⟨?_, ⟨_, rfl, rfl, rfl⟩, rfl, rfl⟩
    show closeInList st.positions p.id t = [markClosed p t]
    rw [hpos]
    simp [closeInList, markClosed]
  · intro hsl htp
    rw [heff, if_pos (by simp [hsl, htp])]
    exact ⟨rfl, hpos, rfl, rfl⟩

/-- Scenario for C5: a buy position with SL 149 and TP 151 against a bar with
low 148.5 and high 150 — only the SL fires. -/
def exPosC5 : Position :=
  { id := 3, side := .buy, lot_size := 1 / 10, entry_price := 150,
    sl_price := some 149, tp_price := some 151, status := .opened,
    opened_at := 2000 }

def exBarC5 : Candle :=
  { timeframe := .M10, timestamp := 2040, opn := 150, high := 150,
    low := 297 / 2, close := 150, volume := 0 }

def exStC5 : SimState :=
  { status := .running, current_time := 2045,
    account := some { initial_balance := 1000000, balance := 1000000,
                      realized_pnl := 0, consecutive_losses := 0 },
    orders := [], positions := [exPosC5], trades := [], pending_orders := [],
    next_id := 4, store := [exBarC5] }

/-- Witness discharging the hypotheses of `C5_sltp_per_bar` at the concrete
SL-only scenario. -/
theorem C5_sltp_per_bar_witness :
    (check_sltp_triggers exStC5 2045).1.positions =
      [markClosed exPosC5 2045] ∧
    (∃ tr, (check_sltp_triggers exStC5 2045).1.trades =
        exStC5.trades ++ [tr] ∧
      tr.position_id = exPosC5.id ∧
      tr.exit_price = exPosC5.sl_price.getD 0) ∧
    (check_sltp_triggers exStC5 2045).2.1 =
      [⟨exPosC5.id, "sl", exPosC5.sl_price.getD 0⟩] ∧
    (check_sltp_triggers exStC5 2045).2.2 = [] :=
  (C5_sltp_per_bar exStC5 exPosC5 exBarC5 2045 rfl rfl
    (Or.inl (by simp [exPosC5])) rfl).1
    (by norm_num [sl_fires, exPosC5, exBarC5])
    (by norm_num [tp_fires, exPosC5, exBarC5])

/-! ## C3: the balance invariant -/

/-- `balance == initial_balance + Σ realized_pnl over the closed trades`. -/
def BalanceInv (st : SimState) : Prop :=
  ∀ acc, st.account = some acc →
    acc.balance = acc.initial_balance + (st.trades.map (·.realized_pnl)).sum

theorem balanceInv_closePositionWithPrice (st : SimState) (p : Position)
    (v : ℚ) (t : Time) (h : BalanceInv st) :
    BalanceInv (closePositionWithPrice st p v t) := by
  intro acc hacc
  unfold closePositionWithPrice at hacc ⊢
  rcases hst : st.account with _ | a
  · rw [hst] at hacc; cases hacc
  · rw [hst] at hacc
    simp only [Option.some.injEq] at hacc
    subst hacc
    have hb := h a hst
    simp [List.sum_append, hb]
    ring

theorem balanceInv_close_position (st : SimState) (id : Nat)
    (h : BalanceInv st) : BalanceInv (close_position st id).1 := by
  unfold close_position
  by_cases h1 : simActive st
  swap
  · rw [if_pos h1]; exact h
  by_cases h2 : st.status = .running ∨ st.status = .paused
  swap
  · rw [if_neg (not_not_intro h1), if_pos h2]; exact h
  rw [if_neg (not_not_intro h1), if_neg (not_not_intro h2)]
  rcases hfind : st.positions.find? (fun p =>
    decide (p.id = id ∧ p.status = .opened)) with _ | position
  · rw [hfind]; exact h
  rw [hfind]
  rcases hacc : st.account with _ | account
  · exact h
  rcases hprice : get_current_price st.store .M10 st.current_time with _ | price
  · exact h
  by_cases hz : price = 0
  · simp only [if_pos hz]; exact h
  simp only [if_neg hz]
  intro acc hacc2
  simp only [Option.some.injEq] at hacc2
  subst hacc2
  have hb := h account hacc
  simp [List.sum_append, hb]
  ring

theorem balanceInv_create_order (st : SimState) (side : Side) (lot : ℚ)
    (slP tpP slp tpp : Option ℚ) (h : BalanceInv st) :
    BalanceInv (create_order st side lot slP tpP slp tpp).1 := by
  unfold create_order
  repeat' split
  all_goals exact h

theorem balanceInv_create_pending_order (st : SimState) (ot : OrderType)
    (side : Side) (lot trig : ℚ) (h : BalanceInv st) :
    BalanceInv (create_pending_order st ot side lot trig).1 := by
  unfold create_pending_order
  repeat' split
  all_goals exact h

theorem pendingStep_preserve (c : Candle) (t : Time) (st : SimState)
    (po : PendingOrder) :
    (pendingStep c t st po).account = st.account ∧
    (pendingStep c t st po).trades = st.trades := by
  unfold pendingStep
  split <;> exact ⟨rfl, rfl⟩

theorem pendingFold_preserve (c : Candle) (t : Time) :
    ∀ (l : List PendingOrder) (st : SimState),
      ((l.foldl (pendingStep c t) st).account = st.account ∧
       (l.foldl (pendingStep c t) st).trades = st.trades)
  | [], st => ⟨rfl, rfl⟩
  | po :: l, st => by
    have h1 := pendingStep_preserve c t st po
    have h2 := pendingFold_preserve c t l (pendingStep c t st po)
    simp only [List.foldl_cons]
    exact ⟨h2.1.trans h1.1, h2.2.trans h1.2⟩

theorem balanceInv_check_pending (st : SimState) (t : Time)
    (h : BalanceInv st) : BalanceInv (check_pending_orders_execution st t) := by
  unfold check_pending_orders_execution
  rcases hl : st.pending_orders.filter (fun po =>
    decide (po.status = .pending)) with _ | ⟨po, rest⟩
  · rw [hl]; exact h
  rw [hl]
  rcases hc : get_candle_at_time st.store .M10 t with _ | candle
  · exact h
  intro acc hacc
  have hp := pendingFold_preserve candle t (po :: rest) st
  rw [show ((po :: rest).foldl (pendingStep candle t) st).account =
    st.account from hp.1] at hacc
  rw [show ((po :: rest).foldl (pendingStep candle t) st).trades =
    st.trades from hp.2]
  exact h acc hacc

theorem sltpStep_preserve (c : Candle) (t : Time)
    (acc : SimState × List TriggeredInfo × List Nat) (p : Position)
    (h : BalanceInv acc.1) : BalanceInv (sltpStep c t acc p).1 := by
  unfold sltpStep
  repeat' split
  · exact h
  · exact balanceInv_closePositionWithPrice _ _ _ _ h
  · exact balanceInv_closePositionWithPrice _ _ _ _ h
  · exact h

theorem sltpFold_preserve (c : Candle) (t : Time) :
    ∀ (l : List Position) (acc : SimState × List TriggeredInfo × List Nat),
      BalanceInv acc.1 → BalanceInv ((l.foldl (sltpStep c t) acc).1)
  | [], _, h => h
  | p :: l, acc, h => by
    simp only [List.foldl_cons]
    exact sltpFold_preserve c t l (sltpStep c t acc p)
      (sltpStep_preserve c t acc p h)

theorem balanceInv_check_sltp (st : SimState) (t : Time)
    (h : BalanceInv st) : BalanceInv (check_sltp_triggers st t).1 := by
  unfold check_sltp_triggers
  rcases hl : sltpCandidates st with _ | ⟨p, rest⟩
  · exact h
  rcases hc : get_candle_at_time st.store .M10 t with _ | candle
  · exact h
  exact sltpFold_preserve candle t (p :: rest) (st, [], []) h

theorem balanceInv_applyOp (st : SimState) (op : Op) (h : BalanceInv st) :
    BalanceInv (applyOp st op) := by
  cases op with
  | createOrder side lot slP tpP slp tpp =>
    exact balanceInv_create_order st side lot slP tpP slp tpp h
  | closePosition id => exact balanceInv_close_position st id h
  | createPendingOrder ot side lot trig =>
    exact balanceInv_create_pending_order st ot side lot trig h
  | checkPendingOrders t => exact balanceInv_check_pending st t h
  | checkSLTP t => exact balanceInv_check_sltp st t h

theorem balanceInv_runOps :
    ∀ (ops : List Op) (st : SimState), BalanceInv st →
      BalanceInv (runOps st ops)
  | [], _, h => h
  | op :: ops, st, h =>
    balanceInv_runOps ops (applyOp st op) (balanceInv_applyOp st op h)

/-- C3: after any sequence of order-creation, pending-order and close
operations (including SL/TP-triggered closes) starting from a fresh
simulation, the account balance equals the initial balance plus the sum of
the realized P&L over the recorded trades. -/
theorem C3_balance_invariant :
    ∀ (status : SimStatus) (t0 : Time) (b : ℚ) (store : Store)
      (ops : List Op) (acc : Account),
      (runOps (initState status t0 b store) ops).account = some acc →
      acc.balance = acc.initial_balance +
        ((runOps (initState status t0 b store) ops).trades.map
          (·.realized_pnl)).sum := by
  intro status t0 b store ops acc hacc
  have hinit : BalanceInv (initState status t0 b store) := by
    intro a ha
    simp only [initState, Option.some.injEq] at ha
    subst ha
    simp [initState]
  exact balanceInv_runOps ops _ hinit acc hacc

/-- Witness discharging the hypothesis of `C3_balance_invariant` on the empty
operation sequence. -/
theorem C3_balance_invariant_witness :
    (1000000 : ℚ) =
      (1000000 : ℚ) +
        ((runOps (initState .running 0 1000000 []) []).trades.map
          (·.realized_pnl)).sum := by
  have h := C3_balance_invariant .running 0 1000000 [] []
    { initial_balance := 1000000, balance := 1000000, realized_pnl := 0,
      consecutive_losses := 0 } rfl
  simpa using h

/-! ## C9: clock monotonicity of `advance_time` -/

theorem findNext_gt (store : Store) (tf : Timeframe) (after ts : Time)
    (h : findNextAvailableData store tf after = some ts) : after < ts := by
  unfold findNextAvailableData at h
  rcases hf : ((queryAsc store (fun c =>
      decide (c.timeframe = tf ∧ after < c.timestamp))).take 100).find?
      (fun c => is_market_open c.timestamp) with _ | c
  · rw [hf] at h; cases h
  · rw [hf] at h
    simp only [Option.map_some', Option.some.injEq] at h
    subst h
    have hc := List.mem_of_find?_eq_some hf
    have hmem : c ∈ queryAsc store (fun c =>
        decide (c.timeframe = tf ∧ after < c.timestamp)) :=
      List.mem_of_mem_take hc
    rw [queryAsc, sortAsc] at hmem
    rw [List.mem_insertionSort] at hmem
    have := List.of_mem_filter hmem
    simp only [decide_eq_true_eq] at this
    exact this.2

theorem pendingStep_time (c : Candle) (t : Time) (st : SimState)
    (po : PendingOrder) : (pendingStep c t st po).current_time =
      st.current_time := by
  unfold pendingStep; split <;> rfl

theorem pendingFold_time (c : Candle) (t : Time) :
    ∀ (l : List PendingOrder) (st : SimState),
      (l.foldl (pendingStep c t) st).current_time = st.current_time
  | [], _ => rfl
  | po :: l, st =>
    (pendingFold_time c t l (pendingStep c t st po)).trans
      (pendingStep_time c t st po)

theorem check_pending_time (st : SimState) (t : Time) :
    (check_pending_orders_execution st t).current_time = st.current_time := by
  unfold check_pending_orders_execution
  rcases hl : st.pending_orders.filter (fun po =>
    decide (po.status = .pending)) with _ | ⟨po, rest⟩
  · rw [hl]
  rw [hl]
  rcases hc : get_candle_at_time st.store .M10 t with _ | candle
  · rfl
  exact pendingFold_time candle t (po :: rest) st

theorem sltpStep_time (c : Candle) (t : Time)
    (acc : SimState × List TriggeredInfo × List Nat) (p : Position) :
    (sltpStep c t acc p).1.current_time = acc.1.current_time := by
  unfold sltpStep
  repeat' split
  all_goals rfl

theorem sltpFold_time (c : Candle) (t : Time) :
    ∀ (l : List Position) (acc : SimState × List TriggeredInfo × List Nat),
      ((l.foldl (sltpStep c t) acc).1).current_time = acc.1.current_time
  | [], _ => rfl
  | p :: l, acc =>
    (sltpFold_time c t l (sltpStep c t acc p)).trans
      (sltpStep_time c t acc p)

theorem check_sltp_time (st : SimState) (t : Time) :
    (check_sltp_triggers st t).1.current_time = st.current_time := by
  unfold check_sltp_triggers
  rcases hl : sltpCandidates st with _ | ⟨p, rest⟩
  · rfl
  rcases hc : get_candle_at_time st.store .M10 t with _ | candle
  · rfl
  exact sltpFold_time candle t (p :: rest) (st, [], [])

theorem settleTime_ge (store : Store) (new_time t : Time)
    (h : settleTime store new_time = some t) : new_time ≤ t := by
  unfold settleTime at h
  by_cases hm : is_market_open new_time = true
  · rw [if_neg (not_not_intro hm)] at h
    rcases hcb : get_candles_before store .M10 new_time 1 with _ | ⟨b, rest⟩
    · rw [hcb] at h
      exact le_of_lt (findNext_gt store .M10 new_time t h)
    · rw [hcb] at h
      by_cases hgap : 10 * 60 < new_time * 60 - b.timestamp * 60
      · simp only [if_pos hgap] at h
        exact le_of_lt (findNext_gt store .M10 new_time t h)
      · simp only [if_neg hgap] at h
        cases h
        exact le_refl _
  · rw [if_pos hm] at h
    exact le_of_lt (findNext_gt store .M10 new_time t h)

/-- Scenario refuting C9 as stated: the clock stands at Tuesday 12:00
(minute 2160 of the epoch week) and the store has an M10 candle at Tuesday
10:00 (2040); requesting Tuesday 10:05 (2045) succeeds and rewinds the
clock. -/
def exStC9 : SimState :=
  { status := .running, current_time := 2160,
    account := some { initial_balance := 1000000, balance := 1000000,
                      realized_pnl := 0, consecutive_losses := 0 },
    orders := [], positions := [], trades := [], pending_orders := [],
    next_id := 0, store := [flatM10 2040 150] }

/-- C9 counterexample: a successful `advance_time` call whose resulting
`current_time` is strictly below the one before the call — the clock is not
monotonic for arbitrary requested times. -/
theorem C9_counterexample :
    (advance_time exStC9 2045).2 = Res.ok ∧
    (advance_time exStC9 2045).1.current_time < exStC9.current_time := by
  constructor
  · rfl
  · show (advance_time exStC9 2045).1.current_time < 2160
    norm_num [advance_time, exStC9, settleTime, is_market_open, weekday,
      hourOf, get_candles_before, queryDesc, queryAsc, sortAsc,
      List.insertionSort, List.orderedInsert, filter_market_hours,
      candleToBar, flatM10, simActive, check_pending_orders_execution,
      check_sltp_triggers, sltpCandidates, get_candle_at_time]

/-- C9 as amended: a successful `advance_time` never settles before the
requested time, so the clock is non-decreasing whenever the requested time is
at or after the current one; monotonicity holds only relative to the request,
not unconditionally. -/
theorem C9_amended_clock :
    ∀ (st : SimState) (new_time : Time),
      (advance_time st new_time).2 = Res.ok →
      new_time ≤ (advance_time st new_time).1.current_time ∧
      (st.current_time ≤ new_time →
        st.current_time ≤ (advance_time st new_time).1.current_time) := by
  intro st new_time hok
  have hmain : new_time ≤ (advance_time st new_time).1.current_time := by
    unfold advance_time at hok ⊢
    by_cases h1 : simActive st
    swap
    · rw [if_pos h1] at hok; simp [Res.isError] at hok
    rw [if_neg (not_not_intro h1)] at hok ⊢
    by_cases h2 : st.status ≠ .running
    · rw [if_pos h2] at hok; simp [Res.isError] at hok
    rw [if_neg h2] at hok ⊢
    rcases hs : settleTime st.store new_time with _ | t
    · rw [hs] at hok
      exact Res.noConfusion hok
    · show new_time ≤ (check_sltp_triggers (check_pending_orders_execution
        { st with current_time := t } t) t).1.current_time
      rw [check_sltp_time, check_pending_time]
      exact settleTime_ge st.store new_time t hs
  exact ⟨hmain, fun hbound => le_trans hbound hmain⟩

/-- Witness discharging the hypothesis of `C9_amended_clock` at the concrete
rewind scenario. -/
theorem C9_amended_clock_witness :
    2045 ≤ (advance_time exStC9 2045).1.current_time ∧
    (exStC9.current_time ≤ 2045 →
      exStC9.current_time ≤ (advance_time exStC9 2045).1.current_time) :=
  C9_amended_clock exStC9 2045 rfl

/-! ## C2: partial-candle aggregation -/

theorem foldl_max_mem {α : Type} [LinearOrder α] (a : α) (l : List α) :
    l.foldl max a ∈ a :: l := by
  induction l generalizing a with
  | nil => simp
  | cons x xs ih =>
    simp only [List.foldl_cons]
    rcases List.mem_cons.mp (ih (max a x)) with h | h
    · rw [h]
      rcases max_choice a x with hm | hm <;> rw [hm] <;> simp
    · simp [List.mem_cons_of_mem, h]

theorem le_foldl_max {α : Type} [LinearOrder α] (a : α) (l : List α) :
    ∀ y ∈ a :: l, y ≤ l.foldl max a := by
  induction l generalizing a with
  | nil => intro y hy; simp at hy; simp [hy]
  | cons x xs ih =>
    intro y hy
    simp only [List.foldl_cons]
    rcases List.mem_cons.mp hy with h | h
    · subst h
      exact le_trans (le_max_left y x) (ih (max y x) _ (List.mem_cons_self _ _))
    · rcases List.mem_cons.mp h with h | h
      · subst h
        exact le_trans (le_max_right a y)
          (ih (max a y) _ (List.mem_cons_self _ _))
      · exact ih (max a x) y (List.mem_cons_of_mem _ h)

theorem foldl_min_mem {α : Type} [LinearOrder α] (a : α) (l : List α) :
    l.foldl min a ∈ a :: l := by
  induction l generalizing a with
  | nil => simp
  | cons x xs ih =>
    simp only [List.foldl_cons]
    rcases List.mem_cons.mp (ih (min a x)) with h | h
    · rw [h]
      rcases min_choice a x with hm | hm <;> rw [hm] <;> simp
    · simp [List.mem_cons_of_mem, h]

theorem foldl_min_le {α : Type} [LinearOrder α] (a : α) (l : List α) :
    ∀ y ∈ a :: l, l.foldl min a ≤ y := by
  induction l generalizing a with
  | nil => intro y hy; simp at hy; simp [hy]
  | cons x xs ih =>
    intro y hy
    simp only [List.foldl_cons]
    rcases List.mem_cons.mp hy with h | h
    · subst h
      exact le_trans (ih (min y x) _ (List.mem_cons_self _ _))
        (min_le_left y x)
    · rcases List.mem_cons.mp h with h | h
      · subst h
        exact le_trans (ih (min a y) _ (List.mem_cons_self _ _))
          (min_le_right a y)
      · exact ih (min a x) y (List.mem_cons_of_mem _ h)

/-- An M10 candle timestamped on the Sunday of the epoch week (minute 9360 =
Sunday 12:00), i.e. inside the market-closure window. -/
def exSundayCandle : Candle :=
  { timeframe := .M10, timestamp := 9360, opn := 150, high := 150, low := 150,
    close := 150, volume := 3 }

/-- C2 counterexample: one M10 sub-bar lies in `[start, asOf]`, yet
`generate_partial_candle` returns `none` instead of a bar aggregating it,
because the sub-bar falls outside market hours and is filtered away. -/
theorem C2_counterexample :
    (([exSundayCandle] : Store).filter (fun c =>
      decide (c.timeframe = .M10 ∧ 9360 ≤ c.timestamp ∧
        c.timestamp ≤ 9365))).length = 1 ∧
    generatePartialCandle [exSundayCandle] .H1 9360 9365 = none := by
  constructor
  · rfl
  · rfl

/-- C2 as amended: for a timeframe above the base, `generate_partial_candle`
aggregates the sub-bars of the next-finer timeframe in `[start, asOf]` *that
survive the market-hours filter* (the filter passes everything through for
the D1 source): open of the first, max high, min low, close of the last,
summed volume; it returns `none` exactly when that filtered list is empty —
even if unfiltered sub-bars exist in the range. -/
theorem C2_amended_aggregation :
    ∀ (store : Store) (timeframe src : Timeframe)
      (start_time current_time : Time),
      sourceTimeframe timeframe = some src →
      (filter_market_hours (queryAsc store (fun c =>
          decide (c.timeframe = src ∧ start_time ≤ c.timestamp ∧
            c.timestamp ≤ current_time))) src = [] →
        generatePartialCandle store timeframe start_time current_time =
          none) ∧
      (∀ c0 rest,
        filter_market_hours (queryAsc store (fun c =>
          decide (c.timeframe = src ∧ start_time ≤ c.timestamp ∧
            c.timestamp ≤ current_time))) src = c0 :: rest →
        ∃ b, generatePartialCandle store timeframe start_time current_time =
            some b ∧
          b.timestamp = start_time ∧
          b.opn = c0.opn ∧
          b.close = ((c0 :: rest).getLast (List.cons_ne_nil c0 rest)).close ∧
          b.high ∈ (c0 :: rest).map (·.high) ∧
          (∀ x ∈ (c0 :: rest).map (·.high), x ≤ b.high) ∧
          b.low ∈ (c0 :: rest).map (·.low) ∧
          (∀ x ∈ (c0 :: rest).map (·.low), b.low ≤ x) ∧
          b.volume = ((c0 :: rest).map (·.volume)).sum) := by
  intro store timeframe src start_time current_time hsrc
  have hred : generatePartialCandle store timeframe start_time current_time =
      generateFrom store src start_time current_time := by
    unfold generatePartialCandle; rw [hsrc]
  constructor
  · intro hnil
    rw [hred]
    unfold generateFrom
    rw [hnil]
  · intro c0 rest hcons
    rw [hred]
    unfold generateFrom
    rw [hcons]
    refine ⟨_, rfl, rfl, rfl, rfl, ?_, ?_, ?_, ?_, rfl⟩
    · simpa using foldl_max_mem c0.high (rest.map (·.high))
    · intro x hx
      exact le_foldl_max c0.high (rest.map (·.high)) x (by simpa using hx)
    · simpa using foldl_min_mem c0.low (rest.map (·.low))
    · intro x hx
      exact foldl_min_le c0.low (rest.map (·.low)) x (by simpa using hx)

/-- Witness discharging the hypotheses of `C2_amended_aggregation` on a
single in-hours sub-bar. -/
theorem C2_amended_aggregation_witness :
    ∃ b, generatePartialCandle [flatM10 2040 151] .H1 2040 2045 = some b ∧
      b.timestamp = 2040 ∧
      b.opn = (flatM10 2040 151).opn ∧
      b.close = (([flatM10 2040 151].getLast
        (List.cons_ne_nil (flatM10 2040 151) []))).close ∧
      b.high ∈ [flatM10 2040 151].map (·.high) ∧
      (∀ x ∈ [flatM10 2040 151].map (·.high), x ≤ b.high) ∧
      b.low ∈ [flatM10 2040 151].map (·.low) ∧
      (∀ x ∈ [flatM10 2040 151].map (·.low), b.low ≤ x) ∧
      b.volume = ([flatM10 2040 151].map (·.volume)).sum :=
  (C2_amended_aggregation [flatM10 2040 151] .H1 .M10 2040 2045 rfl).2
    (flatM10 2040 151) [] rfl

/-! ## C1: the no-look-ahead series query

The claim's "built only from stored candles whose timestamp is not after the
as-of time" is formalised as insensitivity: removing every stored candle
timestamped after `current_time` does not change the result of
`getCandlesWithPartialLast` at all. -/

instance : IsTotal Candle (fun a b => a.timestamp ≤ b.timestamp) :=
  ⟨fun a b => Nat.le_total a.timestamp b.timestamp⟩

instance : IsTrans Candle (fun a b => a.timestamp ≤ b.timestamp) :=
  ⟨fun _ _ _ h1 h2 => Nat.le_trans h1 h2⟩

instance : IsAntisymm Candle (fun a b => a.timestamp < b.timestamp) :=
  ⟨fun _ _ h1 h2 => absurd h2 (Nat.not_lt.mpr (Nat.le_of_lt h1))⟩

instance : IsTotal Bar (fun a b => a.timestamp ≤ b.timestamp) :=
  ⟨fun a b => Nat.le_total a.timestamp b.timestamp⟩

instance : IsTrans Bar (fun a b => a.timestamp ≤ b.timestamp) :=
  ⟨fun _ _ _ h1 h2 => Nat.le_trans h1 h2⟩

instance : IsAntisymm Bar (fun a b => a.timestamp < b.timestamp) :=
  ⟨fun _ _ h1 h2 => absurd h2 (Nat.not_lt.mpr (Nat.le_of_lt h1))⟩

/-- Filtering first by a weaker predicate changes nothing. -/
theorem filter_absorb (S : Store) (p q : Candle → Bool)
    (h : ∀ c, p c = true → q c = true) :
    (S.filter q).filter p = S.filter p := by
  induction S with
  | nil => rfl
  | cons c cs ih =>
    by_cases hp : p c = true
    · have hq := h c hp
      simp only [List.filter_cons, hq, hp, if_true, ih]
    · by_cases hq : q c = true <;>
        simp only [List.filter_cons, hq, hp, if_true, if_false,
          Bool.false_eq_true, ih]

/-- The filtered store: candles at or before the as-of time. -/
def pastStore (store : Store) (t : Time) : Store :=
  store.filter (fun c => decide (c.timestamp ≤ t))

theorem queryAsc_past (store : Store) (t : Time) (p : Candle → Bool)
    (h : ∀ c, p c = true → c.timestamp ≤ t) :
    queryAsc (pastStore store t) p = queryAsc store p := by
  unfold queryAsc pastStore
  rw [filter_absorb store p _ (fun c hc => by
    simpa using h c hc)]

theorem queryDesc_past (store : Store) (t : Time) (p : Candle → Bool)
    (h : ∀ c, p c = true → c.timestamp ≤ t) :
    queryDesc (pastStore store t) p = queryDesc store p := by
  unfold queryDesc
  rw [queryAsc_past store t p h]

theorem get_candles_before_past (store : Store) (tf : Timeframe)
    (bt t : Time) (limit : Nat) (hbt : bt ≤ t) :
    get_candles_before (pastStore store t) tf bt limit =
      get_candles_before store tf bt limit := by
  unfold get_candles_before
  rw [queryDesc_past store t _ (fun c hc => by
    simp only [decide_eq_true_eq] at hc
    exact le_trans hc.2 hbt)]

theorem generatePartialCandle_past (store : Store) (tf : Timeframe)
    (s t : Time) :
    generatePartialCandle (pastStore store t) tf s t =
      generatePartialCandle store tf s t := by
  unfold generatePartialCandle
  cases tf <;> simp only [sourceTimeframe] <;> try rfl
  all_goals
    unfold generateFrom
    rw [queryAsc_past store t _ (fun c hc => by
      simp only [decide_eq_true_eq] at hc
      exact hc.2.2)]

theorem appendSynth_past (store : Store) (l : List Bar) (tf : Timeframe)
    (s t : Time) :
    appendSynth (pastStore store t) l tf s t = appendSynth store l tf s t := by
  unfold appendSynth
  rw [generatePartialCandle_past]

theorem generateH1FromM10_past (store : Store) (t : Time) (limit : Nat) :
    generateH1FromM10 (pastStore store t) t limit =
      generateH1FromM10 store t limit := by
  unfold generateH1FromM10
  rw [queryDesc_past store t _ (fun c hc => by
    simp only [decide_eq_true_eq] at hc
    exact hc.2)]
  rcases ((queryDesc store (fun c =>
    decide (c.timeframe = .M10 ∧ c.timestamp ≤ t))).take (limit * 6 * 2)) with
    _ | ⟨c, cs⟩
  · rfl
  · simp only [appendSynth_past]

/-- A ≤-by-timestamp sorted candle list splits into the prefix at or below a
threshold followed by the strictly-later rest. -/
theorem sorted_filter_split (t : Time) :
    ∀ (l : List Candle),
      l.Sorted (fun a b => a.timestamp ≤ b.timestamp) →
      l = l.filter (fun c => decide (c.timestamp ≤ t)) ++
          l.filter (fun c => ! decide (c.timestamp ≤ t))
  | [], _ => rfl
  | c :: cs, h => by
    have hrest := List.sorted_cons.mp h
    by_cases hc : c.timestamp ≤ t
    · simp only [List.filter_cons, hc, decide_True, Bool.not_true,
        if_true, Bool.false_eq_true, if_false, List.cons_append]
      exact congrArg (c :: ·) (sorted_filter_split t cs hrest.2)
    · have hnil : cs.filter (fun c => decide (c.timestamp ≤ t)) = [] := by
        rw [List.filter_eq_nil_iff]
        intro a ha
        simp only [decide_eq_true_eq]
        intro hle
        exact hc (le_trans (hrest.1 a ha) hle)
      have hall : cs.filter (fun c => ! decide (c.timestamp ≤ t)) = cs := by
        rw [List.filter_eq_self]
        intro a ha
        simp only [Bool.not_eq_true', decide_eq_false_iff_not]
        intro hle
        exact hc (le_trans (hrest.1 a ha) hle)
      simp only [List.filter_cons, hc, decide_False, Bool.not_false,
        Bool.false_eq_true, if_false, if_true, hnil, hall, List.nil_append]

/-- Sorted-by-≤ permutations with duplicate-free timestamps are equal
(candle version). -/
theorem eq_of_perm_sorted_nodup_candle (l₁ l₂ : List Candle)
    (hp : l₁.Perm l₂)
    (h₁ : l₁.Sorted (fun a b => a.timestamp ≤ b.timestamp))
    (h₂ : l₂.Sorted (fun a b => a.timestamp ≤ b.timestamp))
    (hn : (l₁.map (·.timestamp)).Nodup) : l₁ = l₂ := by
  have hn₂ : (l₂.map (·.timestamp)).Nodup := ((hp.map _).nodup_iff).mp hn
  have hne₁ : l₁.Pairwise (fun a b => a.timestamp ≠ b.timestamp) :=
    (List.pairwise_map).mp hn
  have hne₂ : l₂.Pairwise (fun a b => a.timestamp ≠ b.timestamp) :=
    (List.pairwise_map).mp hn₂
  have hs₁ : l₁.Sorted (fun a b => a.timestamp < b.timestamp) :=
    h₁.imp₂ (fun _ _ hle hne => lt_of_le_of_ne hle hne) hne₁
  have hs₂ : l₂.Sorted (fun a b => a.timestamp < b.timestamp) :=
    h₂.imp₂ (fun _ _ hle hne => lt_of_le_of_ne hle hne) hne₂
  exact List.eq_of_perm_of_sorted hp hs₁ hs₂

/-- Sorted-by-≤ permutations with duplicate-free timestamps are equal
(bar version). -/
theorem eq_of_perm_sorted_nodup_bar (l₁ l₂ : List Bar)
    (hp : l₁.Perm l₂)
    (h₁ : l₁.Sorted (fun a b => a.timestamp ≤ b.timestamp))
    (h₂ : l₂.Sorted (fun a b => a.timestamp ≤ b.timestamp))
    (hn : (l₁.map (·.timestamp)).Nodup) : l₁ = l₂ := by
  have hn₂ : (l₂.map (·.timestamp)).Nodup := ((hp.map _).nodup_iff).mp hn
  have hne₁ : l₁.Pairwise (fun a b => a.timestamp ≠ b.timestamp) :=
    (List.pairwise_map).mp hn
  have hne₂ : l₂.Pairwise (fun a b => a.timestamp ≠ b.timestamp) :=
    (List.pairwise_map).mp hn₂
  have hs₁ : l₁.Sorted (fun a b => a.timestamp < b.timestamp) :=
    h₁.imp₂ (fun _ _ hle hne => lt_of_le_of_ne hle hne) hne₁
  have hs₂ : l₂.Sorted (fun a b => a.timestamp < b.timestamp) :=
    h₂.imp₂ (fun _ _ hle hne => lt_of_le_of_ne hle hne) hne₂
  exact List.eq_of_perm_of_sorted hp hs₁ hs₂

/-- A single-timeframe query result has duplicate-free timestamps thanks to
the unique index on `(timeframe, timestamp)`. -/
theorem storeOk_query_ts_nodup (store : Store) (tf : Timeframe)
    (q : Candle → Bool) (hS : StoreOk store)
    (htf : ∀ c, q c = true → c.timeframe = tf) :
    ((store.filter q).map (·.timestamp)).Nodup := by
  have hn : ((store.filter q).map
      (fun c => (c.timeframe, c.timestamp))).Nodup :=
    hS.sublist ((List.filter_sublist store).map _)
  have hpairs : (store.filter q).Pairwise
      (fun a b => (a.timeframe, a.timestamp) ≠ (b.timeframe, b.timestamp)) :=
    (List.pairwise_map).mp hn
  have hts : (store.filter q).Pairwise
      (fun a b => a.timestamp ≠ b.timestamp) := by
    refine hpairs.imp_of_mem ?_
    intro a b ha hb hne hts
    apply hne
    rw [Prod.ext_iff]
    exact ⟨(htf a (List.of_mem_filter ha)).trans
      (htf b (List.of_mem_filter hb)).symm, hts⟩
  exact (List.pairwise_map).mpr hts

/-- `filter_market_hours` only removes elements. -/
theorem filter_market_sublist (l : List Candle) (tf : Timeframe) :
    List.Sublist (filter_market_hours l tf) l := by
  unfold filter_market_hours
  split
  · exact List.Sublist.refl l
  · exact List.filter_sublist l

/-- `get_candles_before` has duplicate-free timestamps under the unique
index. -/
theorem get_candles_before_ts_nodup (store : Store) (tf : Timeframe)
    (bt : Time) (L : Nat) (hS : StoreOk store) :
    ((get_candles_before store tf bt L).map (·.timestamp)).Nodup := by
  have base := storeOk_query_ts_nodup store tf
    (fun c => decide (c.timeframe = tf ∧ c.timestamp ≤ bt)) hS
    (fun c hc => (of_decide_eq_true hc).1)
  set l0 := store.filter (fun c =>
    decide (c.timeframe = tf ∧ c.timestamp ≤ bt)) with hl0
  have h1 : ((sortAsc l0).map (·.timestamp)).Nodup :=
    (((List.perm_insertionSort _ l0).map _).nodup_iff).mpr base
  have h2 : (((sortAsc l0).reverse).map (·.timestamp)).Nodup :=
    (((List.reverse_perm (sortAsc l0)).map _).nodup_iff).mpr h1
  have h3 : (((((sortAsc l0).reverse).take (L * 2))).map
      (·.timestamp)).Nodup :=
    h2.sublist ((List.take_sublist _ _).map _)
  have h4 : ((filter_market_hours (((sortAsc l0).reverse).take (L * 2))
      tf).map (·.timestamp)).Nodup :=
    h3.sublist ((filter_market_sublist _ _).map _)
  have h5 : (((filter_market_hours (((sortAsc l0).reverse).take (L * 2))
      tf).take L).map (·.timestamp)).Nodup :=
    h4.sublist ((List.take_sublist _ _).map _)
  have h6 : ((((filter_market_hours (((sortAsc l0).reverse).take (L * 2))
      tf).take L).reverse).map (·.timestamp)).Nodup :=
    (((List.reverse_perm _).map _).nodup_iff).mpr h5
  unfold get_candles_before
  rw [List.map_map]
  exact h6

/-! ### Invariants of the hour-grouping association list -/

theorem mergeOpen_bar_timestamp (a : H1Acc) (c : Candle) :
    (mergeOpen a c).bar.timestamp = a.bar.timestamp := by
  unfold mergeOpen
  split <;> rfl

theorem mergeClose_bar_timestamp (a : H1Acc) (c : Candle) :
    (mergeClose a c).bar.timestamp = a.bar.timestamp := by
  unfold mergeClose
  split <;> rfl

theorem mergeAcc_bar_timestamp (a : H1Acc) (c : Candle) :
    (mergeAcc a c).bar.timestamp = a.bar.timestamp := by
  show (mergeClose (mergeOpen a c) c).bar.timestamp = a.bar.timestamp
  rw [mergeClose_bar_timestamp, mergeOpen_bar_timestamp]

theorem updateAssoc_filter_ne (H : Time) (c : Candle) :
    ∀ (acc : List (Time × H1Acc)),
      (updateAssoc acc H c).filter (fun e => decide (e.1 ≠ H)) =
        acc.filter (fun e => decide (e.1 ≠ H))
  | [] => by simp [updateAssoc]
  | (k, a) :: rest => by
    unfold updateAssoc
    by_cases hk : k = H
    · subst hk
      rw [if_pos rfl]
      simp [List.filter_cons]
    · rw [if_neg hk]
      have ih := updateAssoc_filter_ne H c rest
      simp only [ne_eq, decide_not] at ih
      simp [List.filter_cons, hk, ih]

theorem groupStep_filter_ne (r : Option (List Time)) (H : Time) (c : Candle)
    (hc : truncHour c.timestamp = H) (acc : List (Time × H1Acc)) :
    (groupStep r acc c).filter (fun e => decide (e.1 ≠ H)) =
      acc.filter (fun e => decide (e.1 ≠ H)) := by
  rcases r with _ | missing
  all_goals simp only [groupStep]
  · rw [hc]
    exact updateAssoc_filter_ne H c acc
  · by_cases hm : truncHour c.timestamp ∈ missing
    · rw [if_pos hm, hc]
      exact updateAssoc_filter_ne H c acc
    · rw [if_neg hm]

theorem foldl_groupStep_filter_ne (r : Option (List Time)) (H : Time) :
    ∀ (F : List Candle), (∀ c ∈ F, truncHour c.timestamp = H) →
      ∀ (acc : List (Time × H1Acc)),
      (F.foldl (groupStep r) acc).filter (fun e => decide (e.1 ≠ H)) =
        acc.filter (fun e => decide (e.1 ≠ H))
  | [], _, _ => rfl
  | c :: F, hF, acc => by
    simp only [List.foldl_cons]
    rw [foldl_groupStep_filter_ne r H F
      (fun x hx => hF x (List.mem_cons_of_mem c hx)) (groupStep r acc c)]
    exact groupStep_filter_ne r H c (hF c (List.mem_cons_self c F)) acc

theorem updateAssoc_bar_ts (k : Time) (c : Candle) :
    ∀ (acc : List (Time × H1Acc)),
      (∀ e ∈ acc, e.2.bar.timestamp = e.1) →
      ∀ e ∈ updateAssoc acc k c, e.2.bar.timestamp = e.1
  | [], _, e, he => by
    simp only [updateAssoc, List.mem_singleton] at he
    subst he
    rfl
  | (k', a) :: rest, hall, e, he => by
    unfold updateAssoc at he
    by_cases hk : k' = k
    · rw [if_pos hk] at he
      rcases List.mem_cons.mp he with h | h
      · subst h
        show (mergeAcc a c).bar.timestamp = k'
        rw [mergeAcc_bar_timestamp]
        exact hall (k', a) (List.mem_cons_self _ _)
      · exact hall e (List.mem_cons_of_mem _ h)
    · rw [if_neg hk] at he
      rcases List.mem_cons.mp he with h | h
      · subst h
        exact hall (k', a) (List.mem_cons_self _ _)
      · exact updateAssoc_bar_ts k c rest
          (fun x hx => hall x (List.mem_cons_of_mem _ hx)) e h

theorem foldl_groupStep_bar_ts (r : Option (List Time)) :
    ∀ (l : List Candle) (acc : List (Time × H1Acc)),
      (∀ e ∈ acc, e.2.bar.timestamp = e.1) →
      ∀ e ∈ l.foldl (groupStep r) acc, e.2.bar.timestamp = e.1
  | [], _, hacc, e, he => hacc e he
  | c :: l, acc, hacc, e, he => by
    simp only [List.foldl_cons] at he
    refine foldl_groupStep_bar_ts r l (groupStep r acc c) ?_ e he
    intro x hx
    rcases r with _ | missing
    · simp only [groupStep] at hx
      exact updateAssoc_bar_ts _ c acc hacc x hx
    · simp only [groupStep] at hx
      by_cases hm : truncHour c.timestamp ∈ missing
      · rw [if_pos hm] at hx
        exact updateAssoc_bar_ts _ c acc hacc x hx
      · rw [if_neg hm] at hx
        exact hacc x hx

theorem groupM10_bar_ts (r : Option (List Time)) (l : List Candle) :
    ∀ e ∈ groupM10 r l, e.2.bar.timestamp = e.1 :=
  foldl_groupStep_bar_ts r l [] (fun _ hx => absurd hx (List.not_mem_nil _))

theorem updateAssoc_key_mem (k : Time) (c : Candle) :
    ∀ (acc : List (Time × H1Acc)) (e : Time × H1Acc),
      e ∈ updateAssoc acc k c → e ∈ acc ∨ e.1 = k
  | [], e, he => by
    simp only [updateAssoc, List.mem_singleton] at he
    subst he
    exact Or.inr rfl
  | (k', a) :: rest, e, he => by
    unfold updateAssoc at he
    by_cases hk : k' = k
    · rw [if_pos hk] at he
      rcases List.mem_cons.mp he with h | h
      · subst h
        exact Or.inr hk
      · exact Or.inl (List.mem_cons_of_mem _ h)
    · rw [if_neg hk] at he
      rcases List.mem_cons.mp he with h | h
      · subst h
        exact Or.inl (List.mem_cons_self _ _)
      · rcases updateAssoc_key_mem k c rest e h with h' | h'
        · exact Or.inl (List.mem_cons_of_mem _ h')
        · exact Or.inr h'

theorem foldl_groupStep_keys_restricted (missing : List Time) :
    ∀ (l : List Candle) (acc : List (Time × H1Acc)),
      (∀ e ∈ acc, e.1 ∈ missing) →
      ∀ e ∈ l.foldl (groupStep (some missing)) acc, e.1 ∈ missing
  | [], _, hacc, e, he => hacc e he
  | c :: l, acc, hacc, e, he => by
    simp only [List.foldl_cons] at he
    refine foldl_groupStep_keys_restricted missing l
      (groupStep (some missing) acc c) ?_ e he
    intro x hx
    simp only [groupStep] at hx
    by_cases hm : truncHour c.timestamp ∈ missing
    · rw [if_pos hm] at hx
      rcases updateAssoc_key_mem _ c acc x hx with h | h
      · exact hacc x h
      · rw [h]; exact hm
    · rw [if_neg hm] at hx
      exact hacc x hx

theorem groupM10_keys_restricted (missing : List Time) (l : List Candle) :
    ∀ e ∈ groupM10 (some missing) l, e.1 ∈ missing :=
  foldl_groupStep_keys_restricted missing l []
    (fun _ hx => absurd hx (List.not_mem_nil _))

theorem updateAssoc_keys (k : Time) (c : Candle) :
    ∀ (acc : List (Time × H1Acc)),
      (updateAssoc acc k c).map (·.1) =
        (if k ∈ acc.map (·.1) then acc.map (·.1)
         else acc.map (·.1) ++ [k])
  | [] => by simp [updateAssoc]
  | (k', a) :: rest => by
    unfold updateAssoc
    by_cases hk : k' = k
    · subst hk
      rw [if_pos rfl]
      simp
    · rw [if_neg hk]
      simp only [List.map_cons, updateAssoc_keys k c rest]
      by_cases hmem : k ∈ rest.map (·.1)
      · rw [if_pos hmem, if_pos (List.mem_cons_of_mem _ hmem)]
      · rw [if_neg hmem, if_neg ?_]
        · simp
        · intro hcontra
          rcases List.mem_cons.mp hcontra with h | h
          · exact hk h.symm
          · exact hmem h

theorem updateAssoc_keys_nodup (k : Time) (c : Candle)
    (acc : List (Time × H1Acc)) (h : (acc.map (·.1)).Nodup) :
    ((updateAssoc acc k c).map (·.1)).Nodup := by
  rw [updateAssoc_keys]
  by_cases hmem : k ∈ acc.map (·.1)
  · rw [if_pos hmem]; exact h
  · rw [if_neg hmem]
    refine List.Nodup.append h (List.nodup_singleton k) ?_
    intro x hx hxk
    rw [List.mem_singleton] at hxk
    subst hxk
    exact hmem hx

theorem foldl_groupStep_keys_nodup (r : Option (List Time)) :
    ∀ (l : List Candle) (acc : List (Time × H1Acc)),
      ((acc.map (·.1)).Nodup) →
      (((l.foldl (groupStep r) acc).map (·.1))).Nodup
  | [], _, hacc => hacc
  | c :: l, acc, hacc => by
    simp only [List.foldl_cons]
    refine foldl_groupStep_keys_nodup r l (groupStep r acc c) ?_
    rcases r with _ | missing
    · simp only [groupStep]
      exact updateAssoc_keys_nodup _ c acc hacc
    · simp only [groupStep]
      by_cases hm : truncHour c.timestamp ∈ missing
      · rw [if_pos hm]
        exact updateAssoc_keys_nodup _ c acc hacc
      · rw [if_neg hm]
        exact hacc

theorem groupM10_keys_nodup (r : Option (List Time)) (l : List Candle) :
    ((groupM10 r l).map (·.1)).Nodup :=
  foldl_groupStep_keys_nodup r l [] List.nodup_nil

theorem filter_map_bar (H : Time) :
    ∀ (g : List (Time × H1Acc)), (∀ e ∈ g, e.2.bar.timestamp = e.1) →
      (g.map (fun e => e.2.bar)).filter
          (fun b => decide (b.timestamp ≠ H)) =
        (g.filter (fun e => decide (e.1 ≠ H))).map (fun e => e.2.bar)
  | [], _ => rfl
  | e :: g, hall => by
    have ih := filter_map_bar H g
      (fun x hx => hall x (List.mem_cons_of_mem _ hx))
    simp only [ne_eq, decide_not] at ih
    by_cases he : e.1 = H
    · simp [List.filter_cons, hall e (List.mem_cons_self _ _), he, ih]
    · simp [List.filter_cons, hall e (List.mem_cons_self _ _), he, ih]

theorem truncHour_eq_of_bounds (m x : Nat) (ha : truncHour m = m)
    (hmx : m ≤ x) (hxm : x < m + 60) : truncHour x = m := by
  have ha' : m / 60 * 60 = m := ha
  show x / 60 * 60 = m
  omega

theorem filter_market_hours_M10 (l : List Candle) :
    filter_market_hours l .M10 =
      l.filter (fun c => is_market_open c.timestamp) := by
  unfold filter_market_hours
  rw [if_neg (by simp)]

/-- The store filtered to the past keeps the unique index. -/
theorem pastStore_ok (store : Store) (t : Time) (hS : StoreOk store) :
    StoreOk (pastStore store t) :=
  hS.sublist ((List.filter_sublist store).map _)

/-- Core of the gap-fill branch of C1: the merged-and-sorted H1 series with
the current hour dropped is unchanged when the store is restricted to the
past, because every M10 row later than the as-of time can only feed the
current-hour bucket. -/
theorem gapfill_core (store : Store) (t minM maxM : Time)
    (missing : List Time) (h1 : List Bar) (hS : StoreOk store)
    (halign : truncHour maxM = maxM)
    (hmaxle : maxM ≤ t)
    (hh1nodup : (h1.map (·.timestamp)).Nodup)
    (hdisj : ∀ m ∈ missing, ¬ m ∈ h1.map (·.timestamp)) :
    (sortBarsAsc (h1 ++ (groupM10 (some missing)
        (filter_market_hours (queryAsc (pastStore store t) (fun c =>
          decide (c.timeframe = .M10 ∧ minM ≤ c.timestamp ∧
            c.timestamp < maxM + 60))) .M10)).map
        (fun e => e.2.bar))).filter
      (fun b => decide (b.timestamp ≠ truncHour t)) =
    (sortBarsAsc (h1 ++ (groupM10 (some missing)
        (filter_market_hours (queryAsc store (fun c =>
          decide (c.timeframe = .M10 ∧ minM ≤ c.timestamp ∧
            c.timestamp < maxM + 60))) .M10)).map
        (fun e => e.2.bar))).filter
      (fun b => decide (b.timestamp ≠ truncHour t)) := by
  set Pm : Candle → Bool := fun c =>
    decide (c.timeframe = Timeframe.M10 ∧ minM ≤ c.timestamp ∧
      c.timestamp < maxM + 60) with hPm
  set H : Time := truncHour t with hHdef
  have hPmem : ∀ c, Pm c = true →
      c.timeframe = Timeframe.M10 ∧ minM ≤ c.timestamp ∧
        c.timestamp < maxM + 60 := by
    intro c hc
    rw [hPm] at hc
    exact of_decide_eq_true hc
  have hZsorted : (queryAsc store Pm).Sorted
      (fun a b => a.timestamp ≤ b.timestamp) := List.sorted_insertionSort _ _
  have hZB : queryAsc (pastStore store t) Pm =
      (queryAsc store Pm).filter (fun c => decide (c.timestamp ≤ t)) := by
    apply eq_of_perm_sorted_nodup_candle
    · have e1 : (pastStore store t).filter Pm =
          (store.filter Pm).filter (fun c => decide (c.timestamp ≤ t)) := by
        rw [pastStore, List.filter_filter, List.filter_filter]
        exact List.filter_congr (fun c _ => Bool.and_comm _ _)
      refine (List.perm_insertionSort _ _).trans ?_
      rw [e1]
      exact ((List.perm_insertionSort _ _).filter _).symm
    · exact List.sorted_insertionSort _ _
    · exact hZsorted.sublist (List.filter_sublist _)
    · have hbase := storeOk_query_ts_nodup (pastStore store t) .M10 Pm
        (pastStore_ok store t hS) (fun c hc => (hPmem c hc).1)
      exact (((List.perm_insertionSort _ _).map _).nodup_iff).mpr hbase
  have hsplit : queryAsc store Pm =
      (queryAsc store Pm).filter (fun c => decide (c.timestamp ≤ t)) ++
      (queryAsc store Pm).filter (fun c => ! decide (c.timestamp ≤ t)) :=
    sorted_filter_split t _ hZsorted
  have hmA : filter_market_hours (queryAsc store Pm) .M10 =
      filter_market_hours (queryAsc (pastStore store t) Pm) .M10 ++
      ((queryAsc store Pm).filter
        (fun c => ! decide (c.timestamp ≤ t))).filter
        (fun c => is_market_open c.timestamp) := by
    rw [filter_market_hours_M10, filter_market_hours_M10, hZB]
    conv_lhs => rw [hsplit]
    rw [List.filter_append]
  have hF : ∀ c ∈ ((queryAsc store Pm).filter
      (fun c => ! decide (c.timestamp ≤ t))).filter
      (fun c => is_market_open c.timestamp),
      truncHour c.timestamp = H := by
    intro c hc
    have hc1 : c ∈ (queryAsc store Pm).filter
        (fun c => ! decide (c.timestamp ≤ t)) := List.mem_of_mem_filter hc
    have hgt : ¬ (c.timestamp ≤ t) := by
      have := List.of_mem_filter hc1
      simpa using this
    have hmemZ : c ∈ queryAsc store Pm := List.mem_of_mem_filter hc1
    have hPmc : Pm c = true := by
      rw [queryAsc, sortAsc] at hmemZ
      rw [List.mem_insertionSort] at hmemZ
      exact List.of_mem_filter hmemZ
    obtain ⟨-, -, hlt⟩ := hPmem c hPmc
    have htlt : t < c.timestamp := Nat.lt_of_not_le hgt
    have ha := truncHour_eq_of_bounds maxM c.timestamp halign
      (le_trans hmaxle (Nat.le_of_lt htlt)) hlt
    have hb := truncHour_eq_of_bounds maxM t halign hmaxle
      (lt_trans htlt hlt)
    rw [hHdef, ha, hb]
  have hgroup : (groupM10 (some missing)
      (filter_market_hours (queryAsc store Pm) .M10)).filter
        (fun e => decide (e.1 ≠ H)) =
      (groupM10 (some missing)
        (filter_market_hours (queryAsc (pastStore store t) Pm) .M10)).filter
        (fun e => decide (e.1 ≠ H)) := by
    rw [hmA]
    unfold groupM10
    rw [List.foldl_append]
    exact foldl_groupStep_filter_ne (some missing) H _ hF _
  have hW : (h1 ++ (groupM10 (some missing)
      (filter_market_hours (queryAsc (pastStore store t) Pm) .M10)).map
        (fun e => e.2.bar)).filter (fun b => decide (b.timestamp ≠ H)) =
      (h1 ++ (groupM10 (some missing)
        (filter_market_hours (queryAsc store Pm) .M10)).map
        (fun e => e.2.bar)).filter (fun b => decide (b.timestamp ≠ H)) := by
    rw [List.filter_append, List.filter_append,
      filter_map_bar H _ (groupM10_bar_ts _ _),
      filter_map_bar H _ (groupM10_bar_ts _ _), hgroup]
  have hWnodup : (((h1 ++ (groupM10 (some missing)
      (filter_market_hours (queryAsc (pastStore store t) Pm) .M10)).map
        (fun e => e.2.bar)).filter
        (fun b => decide (b.timestamp ≠ H))).map (·.timestamp)).Nodup := by
    rw [List.filter_append,
      filter_map_bar H _ (groupM10_bar_ts _ _), List.map_append]
    have hn1 : ((h1.filter (fun b => decide (b.timestamp ≠ H))).map
        (·.timestamp)).Nodup :=
      hh1nodup.sublist ((List.filter_sublist _).map _)
    have hkeyeq : (((groupM10 (some missing)
        (filter_market_hours (queryAsc (pastStore store t) Pm)
          .M10)).filter (fun e => decide (e.1 ≠ H))).map
        (fun e => e.2.bar)).map (·.timestamp) =
        ((groupM10 (some missing)
          (filter_market_hours (queryAsc (pastStore store t) Pm)
            .M10)).filter (fun e => decide (e.1 ≠ H))).map (·.1) := by
      rw [List.map_map]
      refine List.map_congr_left ?_
      intro e he
      exact groupM10_bar_ts _ _ e (List.mem_of_mem_filter he)
    rw [hkeyeq]
    have hn2 : (((groupM10 (some missing)
        (filter_market_hours (queryAsc (pastStore store t) Pm)
          .M10)).filter (fun e => decide (e.1 ≠ H))).map (·.1)).Nodup :=
      (groupM10_keys_nodup _ _).sublist ((List.filter_sublist _).map _)
    refine List.Nodup.append hn1 hn2 ?_
    intro x hx1 hx2
    rw [List.mem_map] at hx2
    obtain ⟨e, he, hex⟩ := hx2
    have hkey : e.1 ∈ missing :=
      groupM10_keys_restricted _ _ e (List.mem_of_mem_filter he)
    have : x ∈ h1.map (·.timestamp) := by
      rw [List.mem_map] at hx1 ⊢
      obtain ⟨b, hb, hbx⟩ := hx1
      exact ⟨b, List.mem_of_mem_filter hb, hbx⟩
    rw [← hex] at this
    exact hdisj e.1 hkey this
  apply eq_of_perm_sorted_nodup_bar
  · refine ((List.perm_insertionSort _ _).filter _).trans ?_
    rw [hW]
    exact (((List.perm_insertionSort _ _).filter _)).symm
  · exact (List.sorted_insertionSort _ _).sublist (List.filter_sublist _)
  · exact (List.sorted_insertionSort _ _).sublist (List.filter_sublist _)
  · exact ((((List.perm_insertionSort _ _).filter _).map
      (fun b : Bar => b.timestamp)).nodup_iff).mpr hWnodup

/-- Truncating to the hour is idempotent. -/
theorem truncHour_idem (u : Nat) : truncHour (truncHour u) = truncHour u := by
  show u / 60 * 60 / 60 * 60 = u / 60 * 60
  omega

/-- Truncating to the hour never moves forwards. -/
theorem truncHour_le (u : Nat) : truncHour u ≤ u := by
  show u / 60 * 60 ≤ u
  omega

/-- Each step of the expected-hour grid stays at or before the as-of time. -/
theorem range_step_le (oldest t k : Nat) (hot : oldest ≤ t)
    (hk : k < (t - oldest) / 60 + 1) : oldest + 60 * k ≤ t := by
  omega

/-- Every entry of `_get_h1_with_gap_fill`'s missing-hours list is an
hour-aligned timestamp at or before the as-of time. -/
theorem missing_mem_aligned (c0 : Bar) (h1rest : List Bar) (t m : Time)
    (hm : m ∈ (if c0.timestamp ≤ t then
        ((List.range ((t - c0.timestamp) / 60 + 1)).map
          (fun k => c0.timestamp + 60 * k)).filterMap
          (fun u => if is_market_open u then some (truncHour u) else none)
      else []).filter
        (fun e => ¬ e ∈ (c0 :: h1rest).map (·.timestamp))) :
    truncHour m = m ∧ m ≤ t := by
  have hm' := List.mem_of_mem_filter hm
  by_cases hot : c0.timestamp ≤ t
  · rw [if_pos hot] at hm'
    rw [List.mem_filterMap] at hm'
    obtain ⟨u, hu, hif⟩ := hm'
    by_cases hop : is_market_open u
    · rw [if_pos hop] at hif
      have hum : truncHour u = m := Option.some.inj hif
      rw [List.mem_map] at hu
      obtain ⟨k, hk, hku⟩ := hu
      rw [List.mem_range] at hk
      refine ⟨by rw [← hum]; exact truncHour_idem u, ?_⟩
      rw [← hum]
      calc truncHour u ≤ u := truncHour_le u
        _ ≤ t := by
          rw [← hku]
          exact range_step_le c0.timestamp t k hot hk
    · rw [if_neg hop] at hif
      cases hif
  · rw [if_neg hot] at hm'
    cases hm'

/-- Dropping fewer elements than the length keeps the last element. -/
theorem getLast_drop_of_lt : ∀ (l : List Bar) (k : Nat), k < l.length →
    (l.drop k).getLast? = l.getLast? := by
  intro l
  induction l with
  | nil =>
    intro k hk
    exact absurd hk (Nat.not_lt_zero k)
  | cons x xs ih =>
    intro k hk
    cases k with
    | zero => rfl
    | succ k =>
      have hk' : k < xs.length := Nat.lt_of_succ_lt_succ hk
      cases xs with
      | nil => exact absurd hk' (Nat.not_lt_zero k)
      | cons y ys =>
        rw [List.drop_succ_cons, ih k hk', List.getLast?_cons_cons]

/-- The Python tail truncation `lst[-limit:]` keeps the last element. -/
theorem pyTailLimit_getLast (l : List Bar) (limit : Nat) :
    (pyTailLimit l limit).getLast? = l.getLast? := by
  unfold pyTailLimit
  by_cases h1 : limit < l.length
  · rw [if_pos h1]
    by_cases h0 : limit = 0
    · rw [if_pos h0]
    · rw [if_neg h0]
      exact getLast_drop_of_lt l (l.length - limit) (by omega)
  · rw [if_neg h1]

/-- When the partial candle exists, appending it makes it the last element. -/
theorem appendSynth_getLast (store : Store) (l : List Bar) (tf : Timeframe)
    (s t : Time) (b : Bar)
    (h : generatePartialCandle store tf s t = some b) :
    (appendSynth store l tf s t).getLast? = some b := by
  unfold appendSynth
  rw [h]
  exact List.getLast?_concat l

/-- The missing-hours branch of `_get_h1_with_gap_fill` only looks at rows
timestamped at or before the as-of time. -/
theorem gapFillCons_past (store : Store) (c0 : Bar) (h1rest : List Bar)
    (t : Time) (limit : Nat) (hS : StoreOk store)
    (hnodup : ((c0 :: h1rest).map (·.timestamp)).Nodup) :
    gapFillCons (pastStore store t) c0 h1rest t limit =
      gapFillCons store c0 h1rest t limit := by
  unfold gapFillCons
  generalize hmiss : (if c0.timestamp ≤ t then
      ((List.range ((t - c0.timestamp) / 60 + 1)).map
        (fun k => c0.timestamp + 60 * k)).filterMap
        (fun u => if is_market_open u then some (truncHour u) else none)
    else []).filter
      (fun e => ¬ e ∈ (c0 :: h1rest).map (·.timestamp)) = miss
  rcases miss with _ | ⟨m0, ms⟩
  · have key0 : (appendSynth (pastStore store t) ((c0 :: h1rest).filter
        (fun b => b.timestamp ≠ calculate_candle_start_time .H1 t)) .H1
        (calculate_candle_start_time .H1 t) t, false) =
        (appendSynth store ((c0 :: h1rest).filter
        (fun b => b.timestamp ≠ calculate_candle_start_time .H1 t)) .H1
        (calculate_candle_start_time .H1 t) t, false) := by
      rw [appendSynth_past]
    exact key0
  · have hmem : ∀ m ∈ m0 :: ms, truncHour m = m ∧ m ≤ t := by
      intro m hm
      rw [← hmiss] at hm
      exact missing_mem_aligned c0 h1rest t m hm
    have hdisj : ∀ m ∈ m0 :: ms, ¬ m ∈ (c0 :: h1rest).map (·.timestamp) := by
      intro m hm
      rw [← hmiss] at hm
      exact of_decide_eq_true (List.mem_filter.mp hm).2
    obtain ⟨halign, hmaxle⟩ := hmem (ms.foldl max m0) (foldl_max_mem m0 ms)
    have key : (pyTailLimit (appendSynth (pastStore store t)
        ((sortBarsAsc ((c0 :: h1rest) ++ (groupM10 (some (m0 :: ms))
          (filter_market_hours (queryAsc (pastStore store t) (fun c =>
            decide (c.timeframe = .M10 ∧ ms.foldl min m0 ≤ c.timestamp ∧
              c.timestamp < ms.foldl max m0 + 60))) .M10)).map
          (fun e => e.2.bar))).filter (fun b =>
            b.timestamp ≠ calculate_candle_start_time .H1 t)) .H1
        (calculate_candle_start_time .H1 t) t) limit, false) =
        (pyTailLimit (appendSynth store
        ((sortBarsAsc ((c0 :: h1rest) ++ (groupM10 (some (m0 :: ms))
          (filter_market_hours (queryAsc store (fun c =>
            decide (c.timeframe = .M10 ∧ ms.foldl min m0 ≤ c.timestamp ∧
              c.timestamp < ms.foldl max m0 + 60))) .M10)).map
          (fun e => e.2.bar))).filter (fun b =>
            b.timestamp ≠ calculate_candle_start_time .H1 t)) .H1
        (calculate_candle_start_time .H1 t) t) limit, false) := by
      simp only [calculate_candle_start_time]
      rw [gapfill_core store t (ms.foldl min m0) (ms.foldl max m0)
        (m0 :: ms) (c0 :: h1rest) hS halign hmaxle hnodup hdisj,
        appendSynth_past]
    exact key

/-- `_get_h1_with_gap_fill` only looks at rows timestamped at or before the
as-of time. -/
theorem getH1WithGapFill_past (store : Store) (t : Time) (limit : Nat)
    (hS : StoreOk store) :
    getH1WithGapFill (pastStore store t) t limit =
      getH1WithGapFill store t limit := by
  unfold getH1WithGapFill
  rw [get_candles_before_past store .H1 t t limit (le_refl t)]
  rcases hh1 : get_candles_before store .H1 t limit with _ | ⟨c0, h1rest⟩
  · exact generateH1FromM10_past store t limit
  · have hnodup : ((c0 :: h1rest).map (·.timestamp)).Nodup := by
      have h := get_candles_before_ts_nodup store .H1 t limit hS
      rw [hh1] at h
      exact h
    exact gapFillCons_past store c0 h1rest t limit hS hnodup

/-- Concrete candles for the C1 scenarios: one closed D1 bar (Monday 07:00)
and one closed H1 bar (Tuesday 10:00) feeding the D1 partial candle. -/
def exD1Candle : Candle :=
  { timeframe := .D1, timestamp := 420, opn := 149, high := 152, low := 148,
    close := 150, volume := 500 }

def exH1Candle : Candle :=
  { timeframe := .H1, timestamp := 2040, opn := 150, high := 151, low := 149,
    close := 151, volume := 100 }

def exStoreC1 : Store := [exD1Candle, exH1Candle]

/-- The D1 partial bar synthesised from `exH1Candle` at Tuesday 10:05. -/
def exPartialC1 : Bar :=
  { timestamp := 1860, opn := 150, high := 151, low := 149, close := 151,
    volume := 100 }

/-- C1 counterexample: for the base timeframe M10 the returned series is the
stored closed bars themselves — a nonempty series is returned while no
partial candle is synthesised at all (generate_partial_candle returns None
for M10), so the last element of the series is not a synthesised partial
bar. -/
theorem C1_counterexample :
    (getCandlesWithPartialLast [flatM10 2040 150] .M10 2045 100).1.length
      = 1 ∧
    generatePartialCandle [flatM10 2040 150] .M10
      (calculate_candle_start_time .M10 2045) 2045 = none := by
  constructor
  · rfl
  · rfl

/-- C1 (amended): the series query never reads price information from rows
timestamped after the as-of time — under the unique (timeframe, timestamp)
index, deleting every row with a later timestamp leaves the result unchanged
— and for every timeframe above the base M10, whenever the partial candle of
the current period exists and the returned series is nonempty, the series'
last element is that partial candle. -/
theorem C1_amended_no_lookahead (store : Store) (timeframe : Timeframe)
    (current_time : Time) (limit : Nat) (hS : StoreOk store) :
    getCandlesWithPartialLast (pastStore store current_time) timeframe
        current_time limit =
      getCandlesWithPartialLast store timeframe current_time limit ∧
    (∀ b : Bar, timeframe ≠ .M10 →
      generatePartialCandle store timeframe
        (calculate_candle_start_time timeframe current_time)
        current_time = some b →
      (getCandlesWithPartialLast store timeframe current_time limit).1 ≠ [] →
      ((getCandlesWithPartialLast store timeframe current_time
        limit).1).getLast? = some b) := by
  constructor
  · cases timeframe with
    | M10 =>
      unfold getCandlesWithPartialLast
      rw [get_candles_before_past store .M10 current_time current_time limit
        (le_refl current_time)]
    | H1 => exact getH1WithGapFill_past store current_time limit hS
    | D1 =>
      unfold getCandlesWithPartialLast
      rw [get_candles_before_past store .D1 current_time current_time limit
        (le_refl current_time)]
      generalize get_candles_before store .D1 current_time limit = all
      rcases all with _ | ⟨a0, arest⟩
      · rfl
      · have key : (appendSynth (pastStore store current_time)
            (((a0 :: arest).map adjustD1).filter (fun b =>
              b.timestamp ≠ calculate_candle_start_time .D1 current_time)) .D1
            (calculate_candle_start_time .D1 current_time) current_time,
            false) =
            (appendSynth store
            (((a0 :: arest).map adjustD1).filter (fun b =>
              b.timestamp ≠ calculate_candle_start_time .D1 current_time)) .D1
            (calculate_candle_start_time .D1 current_time) current_time,
            false) := by
          rw [appendSynth_past]
        exact key
    | W1 =>
      unfold getCandlesWithPartialLast
      rw [get_candles_before_past store .W1 current_time current_time limit
        (le_refl current_time)]
      generalize get_candles_before store .W1 current_time limit = all
      rcases all with _ | ⟨a0, arest⟩
      · rfl
      · have key : (appendSynth (pastStore store current_time)
            ((a0 :: arest).filter (fun b =>
              b.timestamp ≠ calculate_candle_start_time .W1 current_time)) .W1
            (calculate_candle_start_time .W1 current_time) current_time,
            false) =
            (appendSynth store
            ((a0 :: arest).filter (fun b =>
              b.timestamp ≠ calculate_candle_start_time .W1 current_time)) .W1
            (calculate_candle_start_time .W1 current_time) current_time,
            false) := by
          rw [appendSynth_past]
        exact key
  · intro b htf hpart hne
    cases timeframe with
    | M10 => exact absurd rfl htf
    | H1 =>
      unfold getCandlesWithPartialLast at hne ⊢
      unfold getH1WithGapFill at hne ⊢
      revert hne
      generalize get_candles_before store .H1 current_time limit = h1c
      rcases h1c with _ | ⟨c0, h1rest⟩
      · intro hne
        show ((generateH1FromM10 store current_time limit).1).getLast?
          = some b
        unfold generateH1FromM10 at hne ⊢
        revert hne
        generalize (queryDesc store (fun c =>
            decide (c.timeframe = Timeframe.M10 ∧
              c.timestamp ≤ current_time))).take (limit * 6 * 2) = q
        rcases q with _ | ⟨q0, qrest⟩
        · intro hne
          exact absurd rfl hne
        · intro hne
          exact (pyTailLimit_getLast _ limit).trans
            (appendSynth_getLast store _ .H1 (truncHour current_time)
              current_time b hpart)
      · intro hne
        show ((gapFillCons store c0 h1rest current_time limit).1).getLast?
          = some b
        unfold gapFillCons
        generalize (if c0.timestamp ≤ current_time then
            ((List.range ((current_time - c0.timestamp) / 60 + 1)).map
              (fun k => c0.timestamp + 60 * k)).filterMap
              (fun u => if is_market_open u then some (truncHour u) else none)
          else []).filter
            (fun e => ¬ e ∈ (c0 :: h1rest).map (·.timestamp)) = miss
        rcases miss with _ | ⟨m0, ms⟩
        · exact appendSynth_getLast store _ .H1
            (calculate_candle_start_time .H1 current_time) current_time b hpart
        · exact (pyTailLimit_getLast _ limit).trans
            (appendSynth_getLast store _ .H1
              (calculate_candle_start_time .H1 current_time) current_time b
              hpart)
    | D1 =>
      unfold getCandlesWithPartialLast at hne ⊢
      revert hne
      generalize get_candles_before store .D1 current_time limit = all
      rcases all with _ | ⟨a0, arest⟩
      · intro hne
        exact absurd rfl hne
      · intro hne
        exact appendSynth_getLast store _ .D1
          (calculate_candle_start_time .D1 current_time) current_time b hpart
    | W1 =>
      unfold getCandlesWithPartialLast at hne ⊢
      revert hne
      generalize get_candles_before store .W1 current_time limit = all
      rcases all with _ | ⟨a0, arest⟩
      · intro hne
        exact absurd rfl hne
      · intro hne
        exact appendSynth_getLast store _ .W1
          (calculate_candle_start_time .W1 current_time) current_time b hpart

/-- Witness for C1: the concrete two-candle store, timeframe D1 at Tuesday
10:05 — the past-filtered store gives the same series, and the series ends in
the synthesised partial candle. -/
theorem C1_amended_no_lookahead_witness :
    StoreOk exStoreC1 ∧
    (getCandlesWithPartialLast (pastStore exStoreC1 2045) .D1 2045 100 =
      getCandlesWithPartialLast exStoreC1 .D1 2045 100) ∧
    ((getCandlesWithPartialLast exStoreC1 .D1 2045 100).1).getLast? =
      some exPartialC1 := by
  have hS : StoreOk exStoreC1 := by
    unfold StoreOk
    decide
  have h := C1_amended_no_lookahead exStoreC1 .D1 2045 100 hS
  refine ⟨hS, h.1, h.2 exPartialC1 (by decide) rfl ?_⟩
  exact List.ne_nil_of_length_pos (by decide)

end FxSim
